import Mathlib

/-!
Verification of the core of the `uvd-x402-sdk` TypeScript SDK.

The SDK builds chain-native payment authorizations and wraps them in a
versioned "x402" wire envelope.  This file gives a shallow embedding of the
envelope codec (`src/utils/x402.ts`), the Base58 codec of the NEAR provider
(`src/providers/near/index.ts`), the validation utilities
(`src/utils/validation.ts`), and the data/error flow of the per-network
`signPayment` builders (EVM, SVM, Stellar, Algorand, Sui), together with
models of the JavaScript platform primitives they rely on
(`JSON.stringify` / `JSON.parse`, `btoa` / `atob`, `ethers.parseUnits`).

Modelling conventions:
* JavaScript strings are lists of Unicode scalar values (Lean `Char`),
  matching `String.data`; lone UTF-16 surrogates are outside the model.
* JavaScript numbers appearing in headers are integers (`Int`); the values
  the SDK serializes are small integers, where `JSON.stringify` prints the
  plain decimal form.
* Machine arithmetic in the embedded routines stays inside JavaScript's
  exact integer range, so plain `Nat` arithmetic is faithful.
* Fallible operations return `Option` / `Except`; recursion that is not
  structural in the source uses explicit fuel so that every definition
  evaluates by kernel reduction.
-/

/-- A JavaScript string: a list of Unicode scalar values. -/
abbrev JStr := List Char

/-- Convert a Lean string literal to the JavaScript string model. -/
def js (s : String) : JStr := s.toList

/-- JSON values as produced by `JSON.parse` and consumed by
`JSON.stringify`.  Object fields keep their insertion order, as JavaScript
objects do for string keys. -/
inductive Json where
  | null : Json
  | bool (b : Bool) : Json
  | num (n : Int) : Json
  | str (s : JStr) : Json
  | arr (xs : List Json) : Json
  | obj (fs : List (JStr × Json)) : Json
deriving Repr

/-- Property lookup on a JavaScript object: the last write to a key wins,
matching how `JSON.parse` builds objects from duplicate keys. -/
def jsGetLast (fs : List (JStr × Json)) (k : JStr) : Option Json :=
  fs.foldl (fun acc f => if f.1 = k then some f.2 else acc) none

/-- Decimal digit characters of `n`, least significant first; `fuel`
bounds the recursion depth and is complete for `fuel ≥ n`. -/
def natDigitsRev (fuel n : Nat) : List Char :=
  match fuel with
  | 0 => []
  | f + 1 => if n = 0 then [] else Char.ofNat (48 + n % 10) :: natDigitsRev f (n / 10)

/-- Decimal notation of a natural number, as `JSON.stringify` prints it. -/
def printNat (n : Nat) : List Char :=
  if n = 0 then ['0'] else (natDigitsRev n n).reverse

/-- Decimal notation of an integer, as `JSON.stringify` prints it. -/
def printInt (i : Int) : List Char :=
  if i < 0 then '-' :: printNat i.natAbs else printNat i.natAbs

/-- Lower-case hexadecimal digit for `d < 16`. -/
def hexDigitChar (d : Nat) : Char :=
  (("0123456789abcdef").toList).getD d '0'

/-- How `JSON.stringify` escapes one character inside a string literal:
quote and backslash get two-character escapes, the usual control characters
get shorthand escapes, any other control character becomes `\u00XX`, and
everything else is emitted literally. -/
def escapeChar (c : Char) : List Char :=
  if c = '"' then ['\\', '"']
  else if c = '\\' then ['\\', '\\']
  else if c.toNat = 8 then ['\\', 'b']
  else if c.toNat = 9 then ['\\', 't']
  else if c.toNat = 10 then ['\\', 'n']
  else if c.toNat = 12 then ['\\', 'f']
  else if c.toNat = 13 then ['\\', 'r']
  else if c.toNat < 32 then
    ['\\', 'u', '0', '0', hexDigitChar (c.toNat / 16), hexDigitChar (c.toNat % 16)]
  else [c]

/-- The body of a JSON string literal (without the surrounding quotes). -/
def printStrBody (s : JStr) : List Char := (s.map escapeChar).flatten

/-- A JSON string literal with its quotes. -/
def printStr (s : JStr) : List Char := '"' :: printStrBody s ++ ['"']

mutual
/-- The text `JSON.stringify` produces for a value (default spacing:
no whitespace). -/
def printJson : Json → List Char
  | .null => js ("null")
  | .bool true => js ("true")
  | .bool false => js ("false")
  | .num n => printInt n
  | .str s => printStr s
  | .arr xs => '[' :: printElems xs ++ [']']
  | .obj fs => '{' :: printMembers fs ++ ['}']

/-- Comma-separated array elements. -/
def printElems : List Json → List Char
  | [] => []
  | [x] => printJson x
  | x :: y :: t => printJson x ++ ',' :: printElems (y :: t)

/-- Comma-separated object members, each `"key":value`. -/
def printMembers : List (JStr × Json) → List Char
  | [] => []
  | [f] => printStr f.1 ++ ':' :: printJson f.2
  | f :: g :: t => printStr f.1 ++ ':' :: printJson f.2 ++ ',' :: printMembers (g :: t)
end

mutual
/-- Fuel needed by the fueled parser to re-read a printed value. -/
def jsize : Json → Nat
  | .null => 1
  | .bool _ => 1
  | .num _ => 1
  | .str _ => 1
  | .arr xs => 1 + jsizeElems xs
  | .obj fs => 1 + jsizeMembers fs

/-- Fuel needed to re-read a printed element list. -/
def jsizeElems : List Json → Nat
  | [] => 0
  | x :: t => 1 + jsize x + jsizeElems t

/-- Fuel needed to re-read a printed member list. -/
def jsizeMembers : List (JStr × Json) → Nat
  | [] => 0
  | f :: t => 1 + jsize f.2 + jsizeMembers t
end

/-- JSON whitespace, as accepted between tokens by `JSON.parse`. -/
def isJsonWs (c : Char) : Bool :=
  c.toNat = 32 || c.toNat = 9 || c.toNat = 10 || c.toNat = 13

/-- Drop leading JSON whitespace. -/
def skipWs : List Char → List Char
  | [] => []
  | c :: rest => if isJsonWs c then skipWs rest else c :: rest

/-- Value of a hexadecimal digit character. -/
def hexVal (c : Char) : Option Nat :=
  if 48 ≤ c.toNat ∧ c.toNat ≤ 57 then some (c.toNat - 48)
  else if 97 ≤ c.toNat ∧ c.toNat ≤ 102 then some (c.toNat - 87)
  else if 65 ≤ c.toNat ∧ c.toNat ≤ 70 then some (c.toNat - 55)
  else none

/-- Resolve a one-character JSON escape (everything except `\uXXXX`). -/
def unescapeChar (c : Char) : Option Char :=
  if c = '"' then some '"'
  else if c = '\\' then some '\\'
  else if c = '/' then some '/'
  else if c = 'b' then some (Char.ofNat 8)
  else if c = 't' then some (Char.ofNat 9)
  else if c = 'n' then some (Char.ofNat 10)
  else if c = 'f' then some (Char.ofNat 12)
  else if c = 'r' then some (Char.ofNat 13)
  else none

/-- Is `c` a decimal digit character? -/
def isDigitChar (c : Char) : Bool := 48 ≤ c.toNat && c.toNat ≤ 57

/-- Combine four hexadecimal digit characters into a code point. -/
def hex4 (a b c d : Char) : Option Nat :=
  match hexVal a, hexVal b, hexVal c, hexVal d with
  | some va, some vb, some vc, some vd => some (((va * 16 + vb) * 16 + vc) * 16 + vd)
  | _, _, _, _ => none

/-- Parse the body of a JSON string literal up to the closing quote.
Unescaped control characters are rejected, as `JSON.parse` rejects them.
`fuel` bounds the recursion depth; one unit is spent per produced
character, so `fuel ≥` input length always suffices. -/
def parseStringBody : Nat → List Char → Option (JStr × List Char)
  | 0, _ => none
  | _ + 1, [] => none
  | f + 1, c :: rest =>
    if c = '"' then some ([], rest)
    else if c = '\\' then
      match rest with
      | 'u' :: h1 :: h2 :: h3 :: h4 :: rest2 =>
        match hex4 h1 h2 h3 h4 with
        | some v =>
          (parseStringBody f rest2).map fun sr => (Char.ofNat v :: sr.1, sr.2)
        | none => none
      | e :: rest2 =>
        match unescapeChar e with
        | some c2 => (parseStringBody f rest2).map fun sr => (c2 :: sr.1, sr.2)
        | none => none
      | [] => none
    else if c.toNat < 32 then none
    else (parseStringBody f rest).map fun sr => (c :: sr.1, sr.2)

/-- Take the longest prefix of decimal digits, returning their values. -/
def takeDigits : List Char → List Nat × List Char
  | [] => ([], [])
  | c :: rest =>
    if isDigitChar c then
      let dr := takeDigits rest
      ((c.toNat - 48) :: dr.1, dr.2)
    else ([], c :: rest)

/-- Value of a most-significant-first digit list in base `b`. -/
def valMSB (b : Nat) (ds : List Nat) : Nat := ds.foldl (fun a d => a * b + d) 0

/-- Parse an unsigned JSON integer (rejecting a redundant leading zero). -/
def parseNatPart (s : List Char) : Option (Nat × List Char) :=
  match takeDigits s with
  | ([], _) => none
  | (d :: tl, r) => if d = 0 ∧ tl ≠ [] then none else some (valMSB 10 (d :: tl), r)

/-- Parse a JSON number.  The model covers the integers the SDK
serializes; fractional and exponent forms are outside the model. -/
def parseNumber (s : List Char) : Option (Json × List Char) :=
  match s with
  | '-' :: rest => (parseNatPart rest).map fun nr => (.num (-(nr.1 : Int)), nr.2)
  | _ => (parseNatPart s).map fun nr => (.num (nr.1 : Int), nr.2)

mutual
/-- Fueled recursive-descent parser for one JSON value, modelling
`JSON.parse`.  Returns the value and the unconsumed suffix. -/
def parseValue : Nat → List Char → Option (Json × List Char)
  | 0, _ => none
  | f + 1, s =>
    match skipWs s with
    | 'n' :: 'u' :: 'l' :: 'l' :: r => some (.null, r)
    | 't' :: 'r' :: 'u' :: 'e' :: r => some (.bool true, r)
    | 'f' :: 'a' :: 'l' :: 's' :: 'e' :: r => some (.bool false, r)
    | '"' :: r => (parseStringBody r.length r).map fun sr => (.str sr.1, sr.2)
    | '[' :: r =>
      (match skipWs r with
       | ']' :: r2 => some (.arr [], r2)
       | r2 => (parseElems f r2).map fun vr => (.arr vr.1, vr.2))
    | '{' :: r =>
      (match skipWs r with
       | '}' :: r2 => some (.obj [], r2)
       | r2 => (parseMembers f r2).map fun mr => (.obj mr.1, mr.2))
    | c :: r =>
      if c = '-' ∨ isDigitChar c then parseNumber (c :: r) else none
    | [] => none

/-- Parse the elements of a non-empty array, consuming the closing `]`. -/
def parseElems : Nat → List Char → Option (List Json × List Char)
  | 0, _ => none
  | f + 1, s =>
    match parseValue f s with
    | none => none
    | some (v, r) =>
      match skipWs r with
      | ',' :: r2 =>
        (parseElems f r2).map fun vr => (v :: vr.1, vr.2)
      | ']' :: r2 => some ([v], r2)
      | _ => none

/-- Parse the members of a non-empty object, consuming the closing `}`. -/
def parseMembers : Nat → List Char → Option (List (JStr × Json) × List Char)
  | 0, _ => none
  | f + 1, s =>
    match skipWs s with
    | '"' :: r =>
      (match parseStringBody r.length r with
       | none => none
       | some (k, r2) =>
         match skipWs r2 with
         | ':' :: r3 =>
           (match parseValue f r3 with
            | none => none
            | some (v, r4) =>
              match skipWs r4 with
              | ',' :: r5 =>
                (parseMembers f r5).map fun mr => ((k, v) :: mr.1, mr.2)
              | '}' :: r5 => some ([(k, v)], r5)
              | _ => none)
         | _ => none)
    | _ => none
end

/-- Model of `JSON.parse`: parse one value and require only whitespace
after it. -/
def jsonParse (s : List Char) : Option Json :=
  match parseValue (s.length + 1) s with
  | some (v, r) => if skipWs r = [] then some v else none
  | none => none

/-- The input sits at a value boundary: empty, or the next character is
not a digit (so number parsing cannot overrun into it). -/
def delimOk : List Char → Prop
  | [] => True
  | c :: _ => isDigitChar c = false

/-- Decimal digit character of `d < 10`. -/
def charify (d : Nat) : Char := Char.ofNat (48 + d)

/-- The base64 alphabet, indexed by a 6-bit value. -/
def b64Char (v : Nat) : Char :=
  (("ABCDEFGHIJKLMNOPQRSTUVWXYZabcdefghijklmnopqrstuvwxyz0123456789+/").toList).getD v '='

/-- Value of a base64 alphabet character. -/
def b64Val (c : Char) : Option Nat :=
  if 65 ≤ c.toNat ∧ c.toNat ≤ 90 then some (c.toNat - 65)
  else if 97 ≤ c.toNat ∧ c.toNat ≤ 122 then some (c.toNat - 97 + 26)
  else if 48 ≤ c.toNat ∧ c.toNat ≤ 57 then some (c.toNat - 48 + 52)
  else if c = '+' then some 62
  else if c = '/' then some 63
  else none

/-- Standard base64 encoding of a byte list, as `btoa` produces
(with `=` padding). -/
def base64Encode : List Nat → List Char
  | [] => []
  | [a] => [b64Char (a / 4), b64Char (a % 4 * 16), '=', '=']
  | [a, b] =>
    [b64Char (a / 4), b64Char (a % 4 * 16 + b / 16), b64Char (b % 16 * 4), '=']
  | a :: b :: c :: rest =>
    b64Char (a / 4) :: b64Char (a % 4 * 16 + b / 16) ::
      b64Char (b % 16 * 4 + c / 64) :: b64Char (c % 64) :: base64Encode rest

/-- Base64 decoding as `atob` performs it: strict about the alphabet and
about `=` appearing only as final padding, forgiving about the value of
unused trailing bits and about missing padding. -/
def base64Decode : List Char → Option (List Nat)
  | [] => some []
  | c1 :: c2 :: c3 :: c4 :: rest =>
    (match b64Val c1, b64Val c2 with
     | some v1, some v2 =>
       if c3 = '=' then
         if c4 = '=' ∧ rest = [] then some [v1 * 4 + v2 / 16] else none
       else
         (match b64Val c3 with
          | some v3 =>
            if c4 = '=' then
              if rest = [] then some [v1 * 4 + v2 / 16, v2 % 16 * 16 + v3 / 4]
              else none
            else
              (match b64Val c4 with
               | some v4 =>
                 (base64Decode rest).map fun bs =>
                   (v1 * 4 + v2 / 16) :: (v2 % 16 * 16 + v3 / 4) ::
                     (v3 % 4 * 64 + v4) :: bs
               | none => none)
          | none => none)
     | _, _ => none)
  | [c1, c2] =>
    (match b64Val c1, b64Val c2 with
     | some v1, some v2 => some [v1 * 4 + v2 / 16]
     | _, _ => none)
  | [c1, c2, c3] =>
    (match b64Val c1, b64Val c2, b64Val c3 with
     | some v1, some v2, some v3 =>
       some [v1 * 4 + v2 / 16, v2 % 16 * 16 + v3 / 4]
     | _, _, _ => none)
  | _ => none

/-- Model of `btoa`: fails on any code point above `0xFF` (the
`InvalidCharacterError` of the platform), otherwise base64 of the code
points taken as bytes.  Note this is latin-1, not UTF-8. -/
def btoaJS (s : List Char) : Option (List Char) :=
  if s.all (fun c => c.toNat ≤ 255) then
    some (base64Encode (s.map Char.toNat))
  else none

/-- Model of `atob`: base64-decode to a string of code points below 256. -/
def atobJS (s : List Char) : Option (List Char) :=
  (base64Decode s).map fun bs => bs.map Char.ofNat

/-- Model of `encodeX402Header` (`src/utils/x402.ts`):
`btoa(JSON.stringify(header))`.  `none` models the `InvalidCharacterError`
that `btoa` throws when the JSON text contains a code point above `0xFF`. -/
def encodeX402Header (header : Json) : Option (List Char) :=
  btoaJS (printJson header)

/-- Model of `decodeX402Header` (`src/utils/x402.ts`):
`JSON.parse(atob(encoded))`; `none` models a decode exception. -/
def decodeX402Header (encoded : List Char) : Option Json :=
  (atobJS encoded).bind jsonParse

/-- Shape of an `X402Header` value (`X402HeaderV1`/`X402HeaderV2` in
`src/types`): an object with `x402Version ∈ {1,2}`, `scheme = "exact"`,
a string `network` and a `payload` field. -/
def isX402Header (h : Json) : Bool :=
  match h with
  | .obj fs =>
    (match jsGetLast fs (js ("x402Version")) with
     | some (.num n) => n == 1 || n == 2
     | _ => false) &&
    (match jsGetLast fs (js ("scheme")) with
     | some (.str s) => s == js ("exact")
     | _ => false) &&
    (match jsGetLast fs (js ("network")) with
     | some (.str _) => true
     | _ => false) &&
    (match jsGetLast fs (js ("payload")) with
     | some _ => true
     | _ => false)
  | _ => false

/-- Keys of an association list are pairwise distinct. -/
def keysDistinct : List (JStr × Json) → Bool
  | [] => true
  | f :: t => !(t.map (·.1)).contains f.1 && keysDistinct t

mutual
/-- Every object in the value has distinct keys — true of every value
that exists as a JavaScript runtime object. -/
def wfKeys : Json → Bool
  | .null => true
  | .bool _ => true
  | .num _ => true
  | .str _ => true
  | .arr xs => wfKeysList xs
  | .obj fs => keysDistinct fs && wfKeysMembers fs

/-- `wfKeys` over array elements. -/
def wfKeysList : List Json → Bool
  | [] => true
  | x :: t => wfKeys x && wfKeysList t

/-- `wfKeys` over object members. -/
def wfKeysMembers : List (JStr × Json) → Bool
  | [] => true
  | f :: t => wfKeys f.2 && wfKeysMembers t
end

/-- UTF-8 encoding of one code point. -/
def utf8Char (c : Nat) : List Nat :=
  if c < 128 then [c]
  else if c < 2048 then [192 + c / 64, 128 + c % 64]
  else if c < 65536 then [224 + c / 4096, 128 + c / 64 % 64, 128 + c % 64]
  else [240 + c / 262144, 128 + c / 4096 % 64, 128 + c / 64 % 64, 128 + c % 64]

/-- UTF-8 encoding of a code-point sequence. -/
def utf8Encode (l : List Nat) : List Nat := (l.map utf8Char).flatten

/-- A well-formed v1 header whose `network` field contains the non-latin-1
character `U+20AE`; a `string` field of the `X402Header` type admits it. -/
def headerWithWideChar : Json :=
  .obj [(js ("x402Version"), .num 1), (js ("scheme"), .str (js ("exact"))),
    (js ("network"), .str [Char.ofNat 8366]), (js ("payload"), .obj [])]

/-- A representative well-formed v1 header (SVM payload variant). -/
def sampleHeader : Json :=
  .obj [(js ("x402Version"), .num 1), (js ("scheme"), .str (js ("exact"))),
    (js ("network"), .str (js ("solana"))),
    (js ("payload"), .obj [(js ("transaction"), .str (js ("AQAB+/==")))])]

/-- Model of `detectX402Version` (`src/utils/x402.ts`): non-objects
default to version 1; an explicit `x402Version === 2` wins; otherwise an
`accepts` array, or a `network` string containing a colon, indicates
version 2. -/
def detectX402Version (data : Json) : Nat :=
  match data with
  | .obj fs =>
    if (match jsGetLast fs (js ("x402Version")) with
        | some (.num n) => n == 2
        | _ => false) then 2
    else if (match jsGetLast fs (js ("accepts")) with
        | some (.arr _) => true
        | _ => false) then 2
    else if (match jsGetLast fs (js ("network")) with
        | some (.str s) => s.contains ':'
        | _ => false) then 2
    else 1
  | _ => 1

/-- The version-2 condition exactly as claim C2 words it: an object whose
`x402Version` field equals 2, or that has an `accepts` field which is an
array, or whose `network` field is a string containing a colon. -/
def specSaysV2 (data : Json) : Prop :=
  ∃ fs, data = .obj fs ∧
    (jsGetLast fs (js ("x402Version")) = some (.num 2) ∨
     (∃ xs, jsGetLast fs (js ("accepts")) = some (.arr xs)) ∨
     (∃ s, jsGetLast fs (js ("network")) = some (.str s) ∧ ':' ∈ s))

/-- ASCII lower-casing, as `toLowerCase` acts on chain names. -/
def jsToLower (s : JStr) : JStr :=
  s.map fun c =>
    if 65 ≤ c.toNat ∧ c.toNat ≤ 90 then Char.ofNat (c.toNat + 32) else c

/-- First-match association lookup (JavaScript object property read over
unique keys). -/
def lookupFirst (table : List (JStr × JStr)) (k : JStr) : Option JStr :=
  (table.find? fun e => e.1 == k).map (·.2)

/-- Last-write-wins association lookup, the read side of an object built
by `Object.fromEntries` when keys could repeat. -/
def lookupLast (table : List (JStr × JStr)) (k : JStr) : Option JStr :=
  table.foldl (fun acc e => if e.1 == k then some e.2 else acc) none

/-- `CAIP2_IDENTIFIERS` (`src/types`): chain name to CAIP-2 identifier. -/
def CAIP2_IDENTIFIERS : List (JStr × JStr) :=
  [(js ("base"), js ("eip155:8453")),
   (js ("ethereum"), js ("eip155:1")),
   (js ("polygon"), js ("eip155:137")),
   (js ("arbitrum"), js ("eip155:42161")),
   (js ("optimism"), js ("eip155:10")),
   (js ("avalanche"), js ("eip155:43114")),
   (js ("celo"), js ("eip155:42220")),
   (js ("hyperevm"), js ("eip155:999")),
   (js ("unichain"), js ("eip155:130")),
   (js ("monad"), js ("eip155:143")),
   (js ("scroll"), js ("eip155:534352")),
   (js ("skale"), js ("eip155:1187947933")),
   (js ("skale-testnet"), js ("eip155:324705682")),
   (js ("solana"), js ("solana:5eykt4UsFv8P8NJdTREpY1vzqKqZKvdp")),
   (js ("fogo"), js ("svm:fogo")),
   (js ("stellar"), js ("stellar:pubnet")),
   (js ("near"), js ("near:mainnet")),
   (js ("algorand"), js ("algorand:mainnet")),
   (js ("algorand-testnet"), js ("algorand:testnet")),
   (js ("sui"), js ("sui:mainnet")),
   (js ("sui-testnet"), js ("sui:testnet"))]

/-- `CAIP2_TO_CHAIN`: the reverse mapping, built from the entries of
`CAIP2_IDENTIFIERS` via `Object.fromEntries`. -/
def caip2ToChainTable (caip2 : JStr) : Option JStr :=
  lookupLast (CAIP2_IDENTIFIERS.map fun e => (e.2, e.1)) caip2

/-- The slice of a `ChainConfig` that the CAIP-2 translation reads. -/
structure ChainInfo where
  networkType : JStr
  chainId : Nat
deriving Repr

/-- `SUPPORTED_CHAINS` (`src/chains.ts`): the 16 registered networks,
keyed by name, restricted to the fields used here. -/
def SUPPORTED_CHAINS : List (JStr × ChainInfo) :=
  [(js ("base"), ⟨js ("evm"), 8453⟩),
   (js ("avalanche"), ⟨js ("evm"), 43114⟩),
   (js ("ethereum"), ⟨js ("evm"), 1⟩),
   (js ("polygon"), ⟨js ("evm"), 137⟩),
   (js ("arbitrum"), ⟨js ("evm"), 42161⟩),
   (js ("optimism"), ⟨js ("evm"), 10⟩),
   (js ("celo"), ⟨js ("evm"), 42220⟩),
   (js ("hyperevm"), ⟨js ("evm"), 999⟩),
   (js ("unichain"), ⟨js ("evm"), 130⟩),
   (js ("monad"), ⟨js ("evm"), 143⟩),
   (js ("solana"), ⟨js ("svm"), 0⟩),
   (js ("fogo"), ⟨js ("svm"), 0⟩),
   (js ("stellar"), ⟨js ("stellar"), 0⟩),
   (js ("near"), ⟨js ("near"), 0⟩),
   (js ("algorand"), ⟨js ("algorand"), 0⟩),
   (js ("algorand-testnet"), ⟨js ("algorand"), 0⟩)]

/-- `getChainByName`: `SUPPORTED_CHAINS[name.toLowerCase()]`. -/
def getChainByName (name : JStr) : Option ChainInfo :=
  (SUPPORTED_CHAINS.find? fun e => e.1 == jsToLower name).map (·.2)

/-- Model of `chainToCAIP2` (`src/utils/x402.ts`): direct table hit,
else `eip155:{chainId}` for a registered EVM chain, else
`{networkType}:{name}` for another registered chain, else the input
unchanged. -/
def chainToCAIP2 (chainName : JStr) : JStr :=
  match lookupFirst CAIP2_IDENTIFIERS (jsToLower chainName) with
  | some caip2 => caip2
  | none =>
    match getChainByName chainName with
    | some chain =>
      if chain.networkType == js ("evm") then
        js ("eip155:") ++ printNat chain.chainId
      else
        chain.networkType ++ js (":") ++ chainName
    | none => chainName

/-- Match of the `^eip155:(\d+)$` regular expression, returning the
parsed decimal chain id. -/
def eip155Match (s : JStr) : Option Nat :=
  if s.take 7 == js ("eip155:") then
    (if (s.drop 7) ≠ [] ∧ (s.drop 7).all isDigitChar then
      some (valMSB 10 ((s.drop 7).map fun c => c.toNat - 48))
    else none)
  else none

/-- `split(':')` on a JavaScript string. -/
def splitOnColonAux : JStr → JStr → List JStr
  | [], acc => [acc.reverse]
  | c :: t, acc =>
    if c = ':' then acc.reverse :: splitOnColonAux t []
    else splitOnColonAux t (c :: acc)

/-- `caip2.split(':')`. -/
def splitOnColon (s : JStr) : List JStr := splitOnColonAux s []

/-- The `network:name` fallback of `caip2ToChain`: when the identifier
splits into exactly two parts and the second names a registered chain,
return it. -/
def caip2SplitFallback (caip2 : JStr) : Option JStr :=
  if (splitOnColon caip2).length = 2 then
    (if (getChainByName ((splitOnColon caip2).getD 1 [])).isSome then
      some ((splitOnColon caip2).getD 1 [])
    else none)
  else none

/-- Model of `caip2ToChain` (`src/utils/x402.ts`): direct reverse-table
hit; else, for `eip155:{id}`, scan the `CAIP2_IDENTIFIERS` names for a
registered chain with that id; else the `network:name` fallback; else
`null`. -/
def caip2ToChain (caip2 : JStr) : Option JStr :=
  match caip2ToChainTable caip2 with
  | some name => some name
  | none =>
    match eip155Match caip2 with
    | some chainId =>
      (match CAIP2_IDENTIFIERS.find? (fun e =>
          match getChainByName e.1 with
          | some chain => chain.chainId == chainId
          | none => false) with
       | some e => some e.1
       | none => caip2SplitFallback caip2)
    | none => caip2SplitFallback caip2

/-- The names of the registered chains. -/
def registeredChainNames : List JStr := SUPPORTED_CHAINS.map (·.1)

/-- The Base58 alphabet of the NEAR provider. -/
def BASE58_ALPHABET : JStr :=
  js ("123456789ABCDEFGHJKLMNPQRSTUVWXYZabcdefghijkmnopqrstuvwxyz")

/-- `digits[0] += v` on a little-endian limb array (the arrays in the
source always start non-empty). -/
def addToHead (v : Nat) : List Nat → List Nat
  | [] => [v]
  | h :: t => (h + v) :: t

/-- The in-place carry pass of the source: each limb receives the
incoming carry, keeps its residue modulo `base`, and passes the quotient
on; returns the normalized limbs and the final carry. -/
def carryPass (base : Nat) : Nat → List Nat → List Nat × Nat
  | c, [] => ([], c)
  | c, h :: t =>
    let r := carryPass base ((h + c) / base) t
    ((h + c) % base :: r.1, r.2)

/-- The `while (carry) push` loop of the source: emit the base-`base`
limbs of the final carry, least significant first.  `fuel = c` always
suffices. -/
def pushLoop (base : Nat) : Nat → Nat → List Nat
  | 0, _ => []
  | f + 1, c => if c = 0 then [] else c % base :: pushLoop base f (c / base)

/-- One character/byte step shared by `base58Decode` and `base58Encode`:
multiply every limb by `mul`, add `v` to the lowest limb, then normalize
in base `base` (carry pass plus push loop). -/
def limbStep (mul base : Nat) (limbs : List Nat) (v : Nat) : List Nat :=
  let cp := carryPass base 0 (addToHead v (limbs.map (· * mul)))
  cp.1 ++ pushLoop base cp.2 cp.2

/-- The character loop of `base58Decode`: little-endian base-256 limbs,
starting from `[0]`; an unknown character raises. -/
def base58DecodeLimbs : JStr → List Nat → Option (List Nat)
  | [], bytes => some bytes
  | c :: t, bytes =>
    match BASE58_ALPHABET.indexOf? c with
    | some v => base58DecodeLimbs t (limbStep 58 256 bytes v)
    | none => none

/-- `base58Decode` (`src/providers/near/index.ts`): process every
character, then append one zero limb per leading `'1'` and reverse. -/
def base58Decode (str : JStr) : Option (List Nat) :=
  (base58DecodeLimbs str [0]).map fun bytes =>
    (bytes ++ List.replicate (str.takeWhile (· == '1')).length 0).reverse

/-- The byte loop of `base58Encode`: little-endian base-58 limbs,
starting from `[0]`. -/
def base58EncodeDigits (bytes : List Nat) : List Nat :=
  bytes.foldl (fun digits b => limbStep 256 58 digits b) [0]

/-- `base58Encode` (`src/providers/near/index.ts`): one `'1'` per leading
zero byte, then the limbs most significant first through the alphabet. -/
def base58Encode (bytes : List Nat) : JStr :=
  List.replicate (bytes.takeWhile (· == 0)).length '1' ++
    (base58EncodeDigits bytes).reverse.map fun d => BASE58_ALPHABET.getD d ' '

/-- Invariant of the limb arrays in the Base58 routines: value `N` in
base `b`, normalized limbs, and a canonical representation except for the
mandatory single `0` limb when the value is zero. -/
def LimbInv (b N : Nat) (l : List Nat) : Prop :=
  Nat.ofDigits b l = N ∧ (∀ x ∈ l, x < b) ∧
    (N = 0 → l = [0]) ∧ (N ≠ 0 → ∃ d, l.getLast? = some d ∧ d ≠ 0)

def digitVal (c : Char) : Nat := c.toNat - 48

def splitDot : JStr → Option (JStr × JStr)
  | [] => some ([], [])
  | '.' :: r => if r.all isDigitChar then some ([], r) else none
  | c :: r =>
    if isDigitChar c then (splitDot r).map (fun p => (c :: p.1, p.2)) else none

def parseUnitsCore (r : JStr) (decimals : Nat) : Option Nat :=
  match splitDot r with
  | some (w, f) =>
    if w.length + f.length = 0 then none
    else if decimals < f.length then none
    else some (valMSB 10 (w.map digitVal) * 10 ^ decimals +
      valMSB 10 (f.map digitVal) * 10 ^ (decimals - f.length))
  | none => none

def parseUnits (value : JStr) (decimals : Nat) : Option Int :=
  match value with
  | c :: r =>
    if c = '-' then (parseUnitsCore r decimals).map (fun n : Nat => -(n : Int))
    else (parseUnitsCore (c :: r) decimals).map (fun n : Nat => (n : Int))
  | [] => (parseUnitsCore [] decimals).map (fun n : Nat => (n : Int))

def decimalValNonneg (r : JStr) : Option ℚ :=
  match splitDot r with
  | some (w, f) =>
    if w.length + f.length = 0 then none
    else some ((valMSB 10 (w.map digitVal) : ℚ) +
      (valMSB 10 (f.map digitVal) : ℚ) / 10 ^ f.length)
  | none => none

def decimalValQ (s : JStr) : Option ℚ :=
  match s with
  | c :: r =>
    if c = '-' then (decimalValNonneg r).map (fun q => -q)
    else decimalValNonneg (c :: r)
  | [] => decimalValNonneg []

def isJsWsChar (c : Char) : Bool :=
  c.toNat = 9 || c.toNat = 10 || c.toNat = 11 || c.toNat = 12 || c.toNat = 13 ||
  c.toNat = 32 || c.toNat = 160 || c.toNat = 0x2028 || c.toNat = 0x2029 ||
  c.toNat = 0xFEFF

def jsTrim (s : JStr) : JStr :=
  ((s.dropWhile isJsWsChar).reverse.dropWhile isJsWsChar).reverse

def isPrefixOfB : JStr → JStr → Bool
  | [], _ => true
  | _ :: _, [] => false
  | a :: as2, b :: bs2 => a == b && isPrefixOfB as2 bs2

def jsIncludes (s pat : JStr) : Bool :=
  match s with
  | [] => isPrefixOfB pat []
  | c :: t => isPrefixOfB pat (c :: t) || jsIncludes t pat

def isHexLetter (c : Char) : Bool :=
  (97 ≤ c.toNat && c.toNat ≤ 102) || (65 ≤ c.toNat && c.toNat ≤ 70)

def ethAddrTest (s : JStr) : Bool :=
  match s with
  | '0' :: 'x' :: rest =>
    rest.length == 40 && rest.all (fun c => isDigitChar c || isHexLetter c)
  | _ => false

def isBase58Char (c : Char) : Bool := BASE58_ALPHABET.contains c

def solanaAddrTest (s : JStr) : Bool :=
  s.all isBase58Char && 32 ≤ s.length && s.length ≤ 44

def isBase32Char (c : Char) : Bool :=
  (65 ≤ c.toNat && c.toNat ≤ 90) || (50 ≤ c.toNat && c.toNat ≤ 55)

def stellarAddrTest (s : JStr) : Bool :=
  match s with
  | 'G' :: rest => rest.length == 55 && rest.all isBase32Char
  | _ => false

def isNearAddrChar (c : Char) : Bool :=
  (97 ≤ c.toNat && c.toNat ≤ 122) || isDigitChar c ||
  c == '.' || c == '_' || c == '-'

def nearAddrTest (s : JStr) : Bool := !s.isEmpty && s.all isNearAddrChar

inductive JsErr where
  | x402 (code : JStr) (cause : Option JStr)
  | raw (msg : JStr)
deriving DecidableEq, Repr

def isX402 : JsErr → Bool
  | .x402 _ _ => true
  | .raw _ => false

def invalidRecipientErr : JsErr := .x402 (js ("INVALID_RECIPIENT")) none

def validateRecipient (recipient : JStr) (networkType : Option JStr) :
    Option JsErr :=
  if recipient = [] then some invalidRecipientErr
  else if jsTrim recipient = [] then some invalidRecipientErr
  else match networkType with
    | none => none
    | some nt =>
      if nt = js ("evm") then
        if ethAddrTest (jsTrim recipient) then none else some invalidRecipientErr
      else if nt = js ("svm") ∨ nt = js ("solana") then
        if solanaAddrTest (jsTrim recipient) then none
        else some invalidRecipientErr
      else if nt = js ("stellar") then
        if stellarAddrTest (jsTrim recipient) then none
        else some invalidRecipientErr
      else if nt = js ("near") then
        if nearAddrTest (jsTrim recipient) && (jsTrim recipient).length ≤ 64
        then none else some invalidRecipientErr
      else none

inductive Effect where
  | rpc (method : JStr)
  | walletSign (method : JStr)
deriving DecidableEq, Repr

structure EVMPaymentPayload where
  toAddr : JStr
  value : Int
  validAfter : Nat
  validBefore : Nat
  signature : JStr
deriving DecidableEq, Repr

def evmSignWrap (m : JStr) : JsErr :=
  if jsIncludes m (js ("User rejected")) then
    .x402 (js ("SIGNATURE_REJECTED")) none
  else .x402 (js ("PAYMENT_FAILED")) (some m)

def evmSignPayment (connected : Bool) (recipient : JStr) (amount : JStr)
    (decimals : Nat) (nowPlusWindow : Nat) (signRes : Except JStr JStr) :
    List Effect × Except JsErr EVMPaymentPayload :=
  if connected = false then
    ([], .error (.x402 (js ("WALLET_NOT_CONNECTED")) none))
  else match validateRecipient recipient (some (js ("evm"))) with
  | some e => ([], .error e)
  | none =>
    match parseUnits amount decimals with
    | none => ([], .error (.raw (js ("invalid FixedNumber string value"))))
    | some value =>
      match signRes with
      | .error m => ([.walletSign (js ("signTypedData"))],
          .error (evmSignWrap m))
      | .ok sig => ([.walletSign (js ("signTypedData"))],
          .ok ⟨recipient, value, 0, nowPlusWindow, sig⟩)

structure NearEnv where
  accessKeyNonce : Except JStr Nat
  blockHeight : Except JStr Nat
  signMsg : Except JStr (List Nat)

structure NEARPaymentPayload where
  receiverAccount : JStr
  amount : Nat
  nonce : Nat
  maxBlockHeight : Nat
  signature : List Nat
deriving DecidableEq, Repr

def nearWrap (m : JStr) : JsErr :=
  if jsIncludes m (js ("User rejected")) || jsIncludes m (js ("cancelled")) then
    .x402 (js ("SIGNATURE_REJECTED")) none
  else .x402 (js ("PAYMENT_FAILED")) (some m)

def nearSignPayment (connected : Bool) (recipient : JStr) (amountMicro : Nat)
    (env : NearEnv) : List Effect × Except JsErr NEARPaymentPayload :=
  if connected = false then
    ([], .error (.x402 (js ("WALLET_NOT_CONNECTED")) none))
  else
    match env.accessKeyNonce with
    | .error m => ([.rpc (js ("getAccessKeyNonce"))], .error (nearWrap m))
    | .ok n =>
      match env.blockHeight with
      | .error m => ([.rpc (js ("getAccessKeyNonce")),
          .rpc (js ("getLatestBlock"))], .error (nearWrap m))
      | .ok h =>
        match env.signMsg with
        | .error m => ([.rpc (js ("getAccessKeyNonce")),
            .rpc (js ("getLatestBlock")),
            .walletSign (js ("signMessage"))], .error (nearWrap m))
        | .ok sig => ([.rpc (js ("getAccessKeyNonce")),
            .rpc (js ("getLatestBlock")),
            .walletSign (js ("signMessage"))],
            .ok ⟨recipient, amountMicro, n + 1, h + 1000, sig⟩)

structure SvmEnv where
  accountInfo : Except JStr Bool
  blockhash : Except JStr JStr
  signTx : Except JStr (List Nat)

structure SolanaPaymentPayload where
  computeUnits : Nat
  instrCount : Nat
  amount : Nat
  recentBlockhash : JStr
  feePayer : JStr
  signedBytes : List Nat
deriving DecidableEq, Repr

def svmWrap (m : JStr) : JsErr :=
  if jsIncludes m (js ("User rejected")) then
    .x402 (js ("SIGNATURE_REJECTED")) none
  else .x402 (js ("PAYMENT_FAILED")) (some m)

def svmSignPayment (connected : Bool) (facilitator recipient : JStr)
    (amountMicro : Nat) (env : SvmEnv) :
    List Effect × Except JsErr SolanaPaymentPayload :=
  if connected = false then
    ([], .error (.x402 (js ("WALLET_NOT_CONNECTED")) none))
  else if facilitator = [] then
    ([], .error (.x402 (js ("INVALID_CONFIG")) none))
  else
    match env.accountInfo with
    | .error m => ([.rpc (js ("getAccountInfo"))], .error (.raw m))
    | .ok ataExists =>
      match env.blockhash with
      | .error m => ([.rpc (js ("getAccountInfo")),
          .rpc (js ("getLatestBlockhash"))], .error (.raw m))
      | .ok bh =>
        match env.signTx with
        | .error m => ([.rpc (js ("getAccountInfo")),
            .rpc (js ("getLatestBlockhash")),
            .walletSign (js ("signTransaction"))], .error (svmWrap m))
        | .ok sig => ([.rpc (js ("getAccountInfo")),
            .rpc (js ("getLatestBlockhash")),
            .walletSign (js ("signTransaction"))],
            .ok ⟨if ataExists then 20000 else 50000,
              if ataExists then 3 else 4, amountMicro, bh, facilitator, sig⟩)

structure AlgoSuggestedParams where
  minFee : Nat
  firstValid : Nat
deriving DecidableEq, Repr

structure AlgoTxn where
  sender : JStr
  receiver : JStr
  amount : Nat
  fee : Nat
  firstValid : Nat
  groupId : Option Nat
deriving DecidableEq, Repr

def assignGroupID (gid : Nat) (txns : List AlgoTxn) : List AlgoTxn :=
  txns.map (fun t => { t with groupId := some gid })

def algoPaymentGroup (facilitator sender recipient : JStr) (amountMicro : Nat)
    (sp : AlgoSuggestedParams) (gid : Nat) : List AlgoTxn :=
  let feeTxn : AlgoTxn :=
    ⟨facilitator, facilitator, 0, 2000, sp.firstValid, none⟩
  let paymentTxn : AlgoTxn :=
    ⟨sender, recipient, amountMicro, 0, sp.firstValid, none⟩
  assignGroupID gid [feeTxn, paymentTxn]

def getField (j : Json) (k : JStr) : Option Json :=
  match j with
  | Json.obj fs => jsGetLast fs k
  | _ => none

def isStrField (j : Json) (k : JStr) : Bool :=
  match getField j k with
  | some (Json.str _) => true
  | _ => false

def isSuiPayloadComplete (j : Json) : Bool :=
  isStrField j (js ("transactionBytes")) && isStrField j (js ("senderSignature")) &&
  isStrField j (js ("from")) && isStrField j (js ("to")) &&
  isStrField j (js ("amount")) && isStrField j (js ("coinObjectId"))

def suiCoinToUse (coins : List (JStr × Nat)) (amountMicro : Nat) : JStr :=
  match coins.find? (fun c => amountMicro ≤ c.2) with
  | some c => c.1
  | none => (coins.headD ([], 0)).1

def suiWrap (m : JStr) : JsErr :=
  if jsIncludes m (js ("User rejected")) || jsIncludes m (js ("rejected")) then
    .x402 (js ("SIGNATURE_REJECTED")) none
  else .x402 (js ("PAYMENT_FAILED")) (some m)

def suiSignPayment (connected : Bool) (sender facilitator recipient : JStr)
    (amountMicro : Nat) (coins : List (JStr × Nat))
    (signRes : Except JStr (JStr × JStr)) : List Effect × Except JsErr Json :=
  if connected = false then
    ([], .error (.x402 (js ("WALLET_NOT_CONNECTED")) none))
  else if facilitator = [] then
    ([], .error (.x402 (js ("INVALID_CONFIG")) none))
  else if coins = [] then
    ([.rpc (js ("getCoins"))], .error (.x402 (js ("INSUFFICIENT_BALANCE")) none))
  else if (coins.map Prod.snd).sum < amountMicro then
    ([.rpc (js ("getCoins"))], .error (.x402 (js ("INSUFFICIENT_BALANCE")) none))
  else
    match signRes with
    | .error m => ([.rpc (js ("getCoins")),
        .walletSign (js ("signTransaction"))], .error (suiWrap m))
    | .ok (bytes, sig) => ([.rpc (js ("getCoins")),
        .walletSign (js ("signTransaction"))],
        .ok (Json.obj [
          (js ("transactionBytes"), Json.str bytes),
          (js ("senderSignature"), Json.str sig),
          (js ("from"), Json.str sender),
          (js ("to"), Json.str recipient),
          (js ("amount"), Json.str (printNat amountMicro))]))

structure StellarInvocation where
  contract : JStr
  functionName : JStr
  fromAddr : JStr
  toAddr : JStr
  amount : Nat
deriving DecidableEq, Repr

structure SorobanPreimage where
  networkId : JStr
  nonce : Nat
  signatureExpirationLedger : Nat
  invocation : StellarInvocation
deriving DecidableEq, Repr

structure StellarCredentials where
  address : JStr
  nonce : Nat
  signatureExpirationLedger : Nat
  signature : JStr
deriving DecidableEq, Repr

structure StellarAuthEntry where
  credentials : StellarCredentials
  rootInvocation : StellarInvocation
deriving DecidableEq, Repr

structure StellarPaymentPayload where
  fromAddr : JStr
  toAddr : JStr
  amount : Nat
  tokenContract : JStr
  authEntry : StellarAuthEntry
  nonce : Nat
  signatureExpirationLedger : Nat
deriving DecidableEq, Repr

structure StellarEnv where
  ledger : Except JStr Nat
  signAuth : Except JStr JStr

def stellarWrap (m : JStr) : JsErr :=
  if jsIncludes m (js ("User rejected")) || jsIncludes m (js ("cancelled")) then
    .x402 (js ("SIGNATURE_REJECTED")) none
  else .x402 (js ("PAYMENT_FAILED")) (some m)

def stellarSignPayment (connected : Bool)
    (publicKey recipient tokenContract networkId : JStr)
    (amountStroops nonce : Nat) (env : StellarEnv) :
    List Effect × Except JsErr (SorobanPreimage × StellarPaymentPayload) :=
  if connected = false then
    ([], .error (.x402 (js ("WALLET_NOT_CONNECTED")) none))
  else
    match env.ledger with
    | .error m => ([.rpc (js ("getLatestLedger"))], .error (stellarWrap m))
    | .ok currentLedger =>
      let signatureExpirationLedger := currentLedger + 60
      let invocation : StellarInvocation :=
        ⟨tokenContract, js ("transfer"), publicKey, recipient, amountStroops⟩
      let preimage : SorobanPreimage :=
        ⟨networkId, nonce, signatureExpirationLedger, invocation⟩
      match env.signAuth with
      | .error m => ([.rpc (js ("getLatestLedger")),
          .walletSign (js ("signAuthEntry"))],
          .error (.x402 (js ("SIGNATURE_REJECTED")) (some m)))
      | .ok sigB64 =>
        let credentials : StellarCredentials :=
          ⟨publicKey, nonce, signatureExpirationLedger, sigB64⟩
        ([.rpc (js ("getLatestLedger")), .walletSign (js ("signAuthEntry"))],
          .ok (preimage, ⟨publicKey, recipient, amountStroops, tokenContract,
            ⟨credentials, invocation⟩, nonce, signatureExpirationLedger⟩))

theorem charify_facts : ∀ d, d < 10 →
    isDigitChar (charify d) = true ∧ (charify d).toNat = 48 + d ∧
    isJsonWs (charify d) = false ∧ charify d ≠ ']' ∧ charify d ≠ '}' ∧
    charify d ≠ '-' := by decide

theorem natDigitsRev_eq : ∀ (f n : Nat), n ≤ f →
    natDigitsRev f n = (Nat.digits 10 n).map charify := by
  intro f
  induction f with
  | zero =>
    intro n hn
    interval_cases n
    simp [natDigitsRev]
  | succ f ih =>
    intro n hn
    by_cases h0 : n = 0
    · simp [natDigitsRev, h0]
    · have h10 : Nat.digits 10 n = n % 10 :: Nat.digits 10 (n / 10) :=
        Nat.digits_def' (by omega) (by omega)
      have hdiv : n / 10 ≤ f := by
        have := Nat.div_lt_self (Nat.pos_of_ne_zero h0) (by omega : 1 < 10)
        omega
      simp [natDigitsRev, h0, h10, ih _ hdiv, charify]

theorem printNat_zero : printNat 0 = ['0'] := rfl

theorem printNat_eq (n : Nat) (hn : n ≠ 0) :
    printNat n = ((Nat.digits 10 n).reverse).map charify := by
  rw [printNat, if_neg hn, natDigitsRev_eq n n le_rfl, List.map_reverse]

theorem printNat_all_digit (n : Nat) :
    ∀ c ∈ printNat n, isDigitChar c = true := by
  by_cases hn : n = 0
  · subst hn; decide
  · rw [printNat_eq n hn]
    intro c hc
    obtain ⟨d, hd, rfl⟩ := List.mem_map.mp hc
    have : d < 10 :=
      Nat.digits_lt_base (by omega) (List.mem_reverse.mp hd)
    exact (charify_facts d this).1

theorem printNat_ne_nil (n : Nat) : printNat n ≠ [] := by
  by_cases hn : n = 0
  · subst hn; decide
  · rw [printNat_eq n hn]
    simp [Nat.digits_ne_nil_iff_ne_zero.mpr hn]

theorem takeDigits_delim (rest : List Char) (hr : delimOk rest) :
    takeDigits rest = ([], rest) := by
  cases rest with
  | nil => rfl
  | cons c t =>
    simp only [delimOk] at hr
    simp [takeDigits, hr]

theorem takeDigits_spec : ∀ (ds : List Nat) (rest : List Char),
    (∀ d ∈ ds, d < 10) → delimOk rest →
    takeDigits (ds.map charify ++ rest) = (ds, rest) := by
  intro ds
  induction ds with
  | nil => intro rest _ hr; simpa using takeDigits_delim rest hr
  | cons d t ih =>
    intro rest hds hr
    have hd : d < 10 := hds d (List.mem_cons_self _ _)
    obtain ⟨h1, h2, -, -, -, -⟩ := charify_facts d hd
    simp only [List.map_cons, List.cons_append, takeDigits, h1, if_true,
      List.append_eq]
    rw [ih rest (fun x hx => hds x (List.mem_cons_of_mem _ hx)) hr]
    simp [h2]

theorem valMSB_reverse (b : Nat) : ∀ (l : List Nat) (acc : Nat),
    List.foldl (fun a d => a * b + d) acc l.reverse =
      acc * b ^ l.length + Nat.ofDigits b l := by
  intro l
  induction l with
  | nil => intro acc; simp [Nat.ofDigits]
  | cons h t ih =>
    intro acc
    simp only [List.reverse_cons, List.foldl_append, ih, List.foldl_cons,
      List.foldl_nil, Nat.ofDigits_cons, List.length_cons]
    ring

theorem valMSB_digits (n : Nat) :
    valMSB 10 ((Nat.digits 10 n).reverse) = n := by
  rw [valMSB, valMSB_reverse]
  simpa using Nat.ofDigits_digits 10 n

theorem parseNatPart_print (n : Nat) (rest : List Char) (hr : delimOk rest) :
    parseNatPart (printNat n ++ rest) = some (n, rest) := by
  by_cases hn : n = 0
  · subst hn
    have h := takeDigits_spec [0] rest (by decide) hr
    have e : (([0] : List Nat).map charify) ++ rest = '0' :: rest := rfl
    rw [e] at h
    have : parseNatPart ('0' :: rest) =
        if (0 : Nat) = 0 ∧ ([] : List Nat) ≠ [] then none
        else some (valMSB 10 [0], rest) := by
      unfold parseNatPart
      rw [h]
    rw [printNat_zero, List.cons_append, List.nil_append, this]
    simp [valMSB]
  · have hds : ∀ d ∈ (Nat.digits 10 n).reverse, d < 10 := fun d hd =>
      Nat.digits_lt_base (by omega) (List.mem_reverse.mp hd)
    have ht := takeDigits_spec ((Nat.digits 10 n).reverse) rest hds hr
    rw [← printNat_eq n hn] at ht
    obtain ⟨d, tl, hcons⟩ :=
      List.exists_cons_of_ne_nil
        (by simp [Nat.digits_ne_nil_iff_ne_zero.mpr hn] :
          (Nat.digits 10 n).reverse ≠ [])
    have hdne : d ≠ 0 := by
      have hh : (Nat.digits 10 n).reverse.head? = some d := by
        rw [hcons]; rfl
      rw [List.head?_reverse] at hh
      have hne : Nat.digits 10 n ≠ [] := Nat.digits_ne_nil_iff_ne_zero.mpr hn
      rw [List.getLast?_eq_getLast _ hne] at hh
      have := Nat.getLast_digit_ne_zero 10 hn
      simp only [Option.some.injEq] at hh
      omega
    have hstep : parseNatPart (printNat n ++ rest) =
        if d = 0 ∧ tl ≠ [] then none else some (valMSB 10 (d :: tl), rest) := by
      unfold parseNatPart
      rw [ht, hcons]
    rw [hstep, if_neg (by simp [hdne]), ← hcons, valMSB_digits]

theorem printInt_ofNat (n : Nat) : printInt (Int.ofNat n) = printNat n := by
  simp [printInt, Int.natAbs_ofNat]

theorem printInt_negSucc (m : Nat) :
    printInt (Int.negSucc m) = '-' :: printNat (m + 1) := by
  rw [printInt, if_pos (Int.negSucc_lt_zero m), Int.natAbs_negSucc]

theorem parseNumber_print (i : Int) (rest : List Char) (hr : delimOk rest) :
    parseNumber (printInt i ++ rest) = some (.num i, rest) := by
  rcases i with n | m
  · rw [printInt_ofNat]
    obtain ⟨c, t, hct⟩ := List.exists_cons_of_ne_nil (printNat_ne_nil n)
    have hdig : isDigitChar c = true := by
      apply printNat_all_digit
      rw [hct]; exact List.mem_cons_self _ _
    have hnotminus : c ≠ '-' := by
      intro h; subst h; simp [isDigitChar] at hdig
    rw [hct, List.cons_append]
    have : parseNumber (c :: (t ++ rest)) =
        (parseNatPart (c :: (t ++ rest))).map fun nr =>
          (.num (nr.1 : Int), nr.2) := by
      simp only [parseNumber]
      split
      · next heq => exact absurd (by injection heq) hnotminus
      · rfl
    rw [this, ← List.cons_append, ← hct, parseNatPart_print n rest hr]
    rfl
  · rw [printInt_negSucc, List.cons_append]
    simp only [parseNumber, parseNatPart_print (m + 1) rest hr]
    simp [Int.negSucc_eq]

theorem hex4_print : ∀ t, t < 32 →
    hex4 '0' '0' (hexDigitChar (t / 16)) (hexDigitChar (t % 16)) = some t := by
  decide

theorem printStrBody_cons (c : Char) (s : JStr) :
    printStrBody (c :: s) = escapeChar c ++ printStrBody s := rfl

theorem escapeChar_len_pos (c : Char) : 0 < (escapeChar c).length := by
  unfold escapeChar
  repeat' split
  all_goals simp

theorem parseStringBody_print : ∀ (s : JStr) (f : Nat) (rest : List Char),
    (printStrBody s).length < f →
    parseStringBody f (printStrBody s ++ '"' :: rest) = some (s, rest) := by
  intro s
  induction s with
  | nil =>
    intro f rest hf
    obtain ⟨f', rfl⟩ : ∃ f', f = f' + 1 := ⟨f - 1, by omega⟩
    rfl
  | cons c s ih =>
    intro f rest hf
    rw [printStrBody_cons] at hf ⊢
    rw [List.length_append] at hf
    have hlen : 0 < (escapeChar c).length := escapeChar_len_pos c
    obtain ⟨f', rfl⟩ : ∃ f', f = f' + 1 := ⟨f - 1, by omega⟩
    have hih := ih f' rest (by omega)
    by_cases h1 : c = '"'
    · subst h1
      rw [show escapeChar '"' = ['\\', '"'] from rfl]
      show (parseStringBody f' (printStrBody s ++ '"' :: rest)).map
          (fun sr => ('"' :: sr.1, sr.2)) = some ('"' :: s, rest)
      rw [hih]
      rfl
    · by_cases h2 : c = '\\'
      · subst h2
        rw [show escapeChar '\\' = ['\\', '\\'] from rfl]
        show (parseStringBody f' (printStrBody s ++ '"' :: rest)).map
            (fun sr => ('\\' :: sr.1, sr.2)) = some ('\\' :: s, rest)
        rw [hih]
        rfl
      · by_cases h3 : c.toNat = 8
        · rw [show escapeChar c = ['\\', 'b'] from by
            simp [escapeChar, h1, h2, h3]]
          have hc : Char.ofNat 8 = c := by
            conv_rhs => rw [← Char.ofNat_toNat c, h3]
          show (parseStringBody f' (printStrBody s ++ '"' :: rest)).map
              (fun sr => (Char.ofNat 8 :: sr.1, sr.2)) = some (c :: s, rest)
          rw [hih, hc]; rfl
        · by_cases h4 : c.toNat = 9
          · rw [show escapeChar c = ['\\', 't'] from by
              simp [escapeChar, h1, h2, h3, h4]]
            have hc : Char.ofNat 9 = c := by
              conv_rhs => rw [← Char.ofNat_toNat c, h4]
            show (parseStringBody f' (printStrBody s ++ '"' :: rest)).map
                (fun sr => (Char.ofNat 9 :: sr.1, sr.2)) = some (c :: s, rest)
            rw [hih, hc]; rfl
          · by_cases h5 : c.toNat = 10
            · rw [show escapeChar c = ['\\', 'n'] from by
                simp [escapeChar, h1, h2, h3, h4, h5]]
              have hc : Char.ofNat 10 = c := by
                conv_rhs => rw [← Char.ofNat_toNat c, h5]
              show (parseStringBody f' (printStrBody s ++ '"' :: rest)).map
                  (fun sr => (Char.ofNat 10 :: sr.1, sr.2)) = some (c :: s, rest)
              rw [hih, hc]; rfl
            · by_cases h6 : c.toNat = 12
              · rw [show escapeChar c = ['\\', 'f'] from by
                  simp [escapeChar, h1, h2, h3, h4, h5, h6]]
                have hc : Char.ofNat 12 = c := by
                  conv_rhs => rw [← Char.ofNat_toNat c, h6]
                show (parseStringBody f' (printStrBody s ++ '"' :: rest)).map
                    (fun sr => (Char.ofNat 12 :: sr.1, sr.2)) = some (c :: s, rest)
                rw [hih, hc]; rfl
              · by_cases h7 : c.toNat = 13
                · rw [show escapeChar c = ['\\', 'r'] from by
                    simp [escapeChar, h1, h2, h3, h4, h5, h6, h7]]
                  have hc : Char.ofNat 13 = c := by
                    conv_rhs => rw [← Char.ofNat_toNat c, h7]
                  show (parseStringBody f' (printStrBody s ++ '"' :: rest)).map
                      (fun sr => (Char.ofNat 13 :: sr.1, sr.2)) = some (c :: s, rest)
                  rw [hih, hc]; rfl
                · by_cases h8 : c.toNat < 32
                  · rw [show escapeChar c =
                        ['\\', 'u', '0', '0', hexDigitChar (c.toNat / 16),
                          hexDigitChar (c.toNat % 16)] from by
                      simp [escapeChar, h1, h2, h3, h4, h5, h6, h7, h8]]
                    show (match hex4 '0' '0' (hexDigitChar (c.toNat / 16))
                            (hexDigitChar (c.toNat % 16)) with
                          | some v =>
                            (parseStringBody f' (printStrBody s ++ '"' :: rest)).map
                              fun sr => (Char.ofNat v :: sr.1, sr.2)
                          | none => none) = some (c :: s, rest)
                    rw [hex4_print c.toNat h8]
                    show (parseStringBody f' (printStrBody s ++ '"' :: rest)).map
                        (fun sr => (Char.ofNat c.toNat :: sr.1, sr.2)) =
                      some (c :: s, rest)
                    rw [hih, Char.ofNat_toNat]; rfl
                  · rw [show escapeChar c = [c] from by
                      simp [escapeChar, h1, h2, h3, h4, h5, h6, h7, h8]]
                    have step : parseStringBody (f' + 1)
                        (c :: (printStrBody s ++ '"' :: rest)) =
                        (parseStringBody f' (printStrBody s ++ '"' :: rest)).map
                          fun sr => (c :: sr.1, sr.2) := by
                      simp only [parseStringBody]
                      rw [if_neg h1, if_neg h2, if_neg (by omega : ¬c.toNat < 32)]
                    simp only [List.cons_append, List.nil_append,
                      List.append_assoc]
                    rw [step, hih]; rfl

theorem jsize_pos : ∀ v : Json, 0 < jsize v := by
  intro v
  cases v <;> simp [jsize]

theorem jsizeElems_pos (vs : List Json) (h : vs ≠ []) : 0 < jsizeElems vs := by
  cases vs with
  | nil => exact absurd rfl h
  | cons x t => simp [jsizeElems]

theorem jsizeMembers_pos (ms : List (JStr × Json)) (h : ms ≠ []) :
    0 < jsizeMembers ms := by
  cases ms with
  | nil => exact absurd rfl h
  | cons x t => simp [jsizeMembers]

theorem skipWs_cons_of (c : Char) (t : List Char) (h : isJsonWs c = false) :
    skipWs (c :: t) = c :: t := by
  simp [skipWs, h]

theorem digit_head_facts (c : Char) (h : isDigitChar c = true) :
    isJsonWs c = false ∧ c ≠ ']' ∧ c ≠ '}' := by
  simp only [isDigitChar, Bool.and_eq_true, decide_eq_true_eq] at h
  refine ⟨?_, ?_, ?_⟩
  · simp only [isJsonWs, Bool.or_eq_false_iff, decide_eq_false_iff_not]
    omega
  · intro hc; subst hc; exact absurd h (by decide)
  · intro hc; subst hc; exact absurd h (by decide)

theorem printJson_head (v : Json) : ∃ c t, printJson v = c :: t ∧
    isJsonWs c = false ∧ c ≠ ']' ∧ c ≠ '}' := by
  cases v with
  | null => exact ⟨'n', _, rfl, by decide, by decide, by decide⟩
  | bool b =>
    cases b
    · exact ⟨'f', _, rfl, by decide, by decide, by decide⟩
    · exact ⟨'t', _, rfl, by decide, by decide, by decide⟩
  | num n =>
    rcases n with m | m
    · show ∃ c t, printInt (Int.ofNat m) = c :: t ∧ _
      rw [printInt_ofNat]
      obtain ⟨c, t, hct⟩ := List.exists_cons_of_ne_nil (printNat_ne_nil m)
      have hd : isDigitChar c = true := by
        apply printNat_all_digit
        rw [hct]; exact List.mem_cons_self _ _
      obtain ⟨w1, w2, w3⟩ := digit_head_facts c hd
      exact ⟨c, t, hct, w1, w2, w3⟩
    · show ∃ c t, printInt (Int.negSucc m) = c :: t ∧ _
      rw [printInt_negSucc]
      exact ⟨'-', _, rfl, by decide, by decide, by decide⟩
  | str s => exact ⟨'"', _, rfl, by decide, by decide, by decide⟩
  | arr xs => exact ⟨'[', _, rfl, by decide, by decide, by decide⟩
  | obj fs => exact ⟨'{', _, rfl, by decide, by decide, by decide⟩

theorem printElems_head (x : Json) (t : List Json) :
    ∃ c w, printElems (x :: t) = c :: w ∧
      isJsonWs c = false ∧ c ≠ ']' ∧ c ≠ '}' := by
  obtain ⟨c, t1, hx, w1, w2, w3⟩ := printJson_head x
  cases t with
  | nil => exact ⟨c, t1, by simpa [printElems] using hx, w1, w2, w3⟩
  | cons y t2 =>
    refine ⟨c, t1 ++ ',' :: printElems (y :: t2), ?_, w1, w2, w3⟩
    simp [printElems, hx]

theorem delim_nil : delimOk [] := trivial

theorem delim_comma (r : List Char) : delimOk (',' :: r) := by
  show isDigitChar ',' = false
  decide

theorem delim_rbrack (r : List Char) : delimOk (']' :: r) := by
  show isDigitChar ']' = false
  decide

theorem delim_rbrace (r : List Char) : delimOk ('}' :: r) := by
  show isDigitChar '}' = false
  decide

theorem parseValue_fallthrough (f : Nat) (c : Char) (r : List Char)
    (hc : c = '-' ∨ isDigitChar c = true) :
    parseValue (f + 1) (c :: r) = parseNumber (c :: r) := by
  rcases hc with rfl | hc
  · rfl
  · simp only [isDigitChar, Bool.and_eq_true, decide_eq_true_eq] at hc
    obtain ⟨n, h48, h57, hcn⟩ : ∃ n, 48 ≤ n ∧ n ≤ 57 ∧ c = Char.ofNat n :=
      ⟨c.toNat, hc.1, hc.2, (Char.ofNat_toNat c).symm⟩
    subst hcn
    interval_cases n <;> rfl

theorem parseValue_number (f : Nat) (i : Int) (rest : List Char)
    (hd : delimOk rest) :
    parseValue (f + 1) (printInt i ++ rest) = some (.num i, rest) := by
  obtain ⟨c, t, hct⟩ : ∃ c t, printInt i = c :: t := by
    rcases i with m | m
    · rw [printInt_ofNat]
      exact List.exists_cons_of_ne_nil (printNat_ne_nil m)
    · exact ⟨'-', _, printInt_negSucc m⟩
  have hdig : c = '-' ∨ isDigitChar c = true := by
    rcases i with m | m
    · right
      rw [printInt_ofNat] at hct
      apply printNat_all_digit
      rw [hct]; exact List.mem_cons_self _ _
    · left
      rw [printInt_negSucc] at hct
      exact List.head_eq_of_cons_eq hct.symm
  rw [hct, List.cons_append, parseValue_fallthrough f c _ hdig,
    ← List.cons_append, ← hct, parseNumber_print i rest hd]

theorem parseValue_arr_step (f : Nat) (c : Char) (r : List Char)
    (hws : isJsonWs c = false) (hbr : c ≠ ']') :
    parseValue (f + 1) ('[' :: c :: r) =
      (parseElems f (c :: r)).map fun vr => (.arr vr.1, vr.2) := by
  show (match skipWs (c :: r) with
        | ']' :: r2 => some (Json.arr [], r2)
        | r2 => (parseElems f r2).map fun vr => (Json.arr vr.1, vr.2)) =
      (parseElems f (c :: r)).map fun vr => (Json.arr vr.1, vr.2)
  rw [skipWs_cons_of c r hws]
  split
  · next heq => exact absurd (List.head_eq_of_cons_eq heq) hbr
  · rfl

theorem parseValue_obj_step (f : Nat) (c : Char) (r : List Char)
    (hws : isJsonWs c = false) (hbr : c ≠ '}') :
    parseValue (f + 1) ('{' :: c :: r) =
      (parseMembers f (c :: r)).map fun mr => (.obj mr.1, mr.2) := by
  show (match skipWs (c :: r) with
        | '}' :: r2 => some (Json.obj [], r2)
        | r2 => (parseMembers f r2).map fun mr => (Json.obj mr.1, mr.2)) =
      (parseMembers f (c :: r)).map fun mr => (Json.obj mr.1, mr.2)
  rw [skipWs_cons_of c r hws]
  split
  · next heq => exact absurd (List.head_eq_of_cons_eq heq) hbr
  · rfl

theorem printMembers_head (m : JStr × Json) (t : List (JStr × Json)) :
    ∃ w, printMembers (m :: t) = '"' :: w := by
  cases t with
  | nil =>
    exact ⟨printStrBody m.1 ++ '"' :: (':' :: printJson m.2),
      by simp [printMembers, printStr]⟩
  | cons g t2 =>
    exact ⟨printStrBody m.1 ++
        '"' :: (':' :: (printJson m.2 ++ ',' :: printMembers (g :: t2))),
      by simp [printMembers, printStr]⟩

theorem parseMembers_step (f : Nat) (r : List Char) :
    parseMembers (f + 1) ('"' :: r) =
      match parseStringBody r.length r with
      | none => none
      | some (k, r2) =>
        match skipWs r2 with
        | ':' :: r3 =>
          (match parseValue f r3 with
           | none => none
           | some (v, r4) =>
             match skipWs r4 with
             | ',' :: r5 => (parseMembers f r5).map fun mr => ((k, v) :: mr.1, mr.2)
             | '}' :: r5 => some ([(k, v)], r5)
             | _ => none)
        | _ => none := rfl

theorem parse_print_aux : ∀ f : Nat,
    (∀ v rest, jsize v ≤ f → delimOk rest →
      parseValue f (printJson v ++ rest) = some (v, rest)) ∧
    (∀ vs rest, vs ≠ [] → jsizeElems vs ≤ f →
      parseElems f (printElems vs ++ ']' :: rest) = some (vs, rest)) ∧
    (∀ ms rest, ms ≠ [] → jsizeMembers ms ≤ f →
      parseMembers f (printMembers ms ++ '}' :: rest) = some (ms, rest)) := by
  intro f
  induction f with
  | zero =>
    refine ⟨fun v rest h _ => absurd h (by have := jsize_pos v; omega),
      fun vs rest hne h => absurd h (by have := jsizeElems_pos vs hne; omega),
      fun ms rest hne h => absurd h (by have := jsizeMembers_pos ms hne; omega)⟩
  | succ f ih =>
    obtain ⟨ihP, ihQ, ihR⟩ := ih
    refine ⟨?_, ?_, ?_⟩
    · intro v rest hsz hdelim
      cases v with
      | null => rfl
      | bool b => cases b <;> rfl
      | num n => exact parseValue_number f n rest hdelim
      | str s =>
        have e : printJson (.str s) ++ rest =
            '"' :: (printStrBody s ++ '"' :: rest) := by
          show ('"' :: (printStrBody s ++ ['"'])) ++ rest = _
          simp
        rw [e]
        have step : parseValue (f + 1) ('"' :: (printStrBody s ++ '"' :: rest)) =
            (parseStringBody (printStrBody s ++ '"' :: rest).length
              (printStrBody s ++ '"' :: rest)).map
              fun sr => (Json.str sr.1, sr.2) := rfl
        rw [step, parseStringBody_print s _ rest (by simp)]
        rfl
      | arr xs =>
        cases xs with
        | nil => rfl
        | cons x t =>
          have hsz2 : jsizeElems (x :: t) ≤ f := by
            simp only [jsize] at hsz; omega
          obtain ⟨c, w, he, hws, hbr, -⟩ := printElems_head x t
          have e : printJson (.arr (x :: t)) ++ rest =
              '[' :: (c :: (w ++ ']' :: rest)) := by
            show ('[' :: (printElems (x :: t) ++ [']'])) ++ rest = _
            rw [he]
            simp
          rw [e, parseValue_arr_step f c _ hws hbr]
          have e2 : c :: (w ++ ']' :: rest) =
              printElems (x :: t) ++ ']' :: rest := by
            rw [he]; simp
          rw [e2, ihQ (x :: t) rest (by simp) hsz2]
          rfl
      | obj fs =>
        cases fs with
        | nil => rfl
        | cons m t =>
          have hsz2 : jsizeMembers (m :: t) ≤ f := by
            simp only [jsize] at hsz; omega
          obtain ⟨w, he⟩ := printMembers_head m t
          have e : printJson (.obj (m :: t)) ++ rest =
              '{' :: ('"' :: (w ++ '}' :: rest)) := by
            show ('{' :: (printMembers (m :: t) ++ ['}'])) ++ rest = _
            rw [he]
            simp
          rw [e, parseValue_obj_step f '"' _ (by decide) (by decide)]
          have e2 : '"' :: (w ++ '}' :: rest) =
              printMembers (m :: t) ++ '}' :: rest := by
            rw [he]; simp
          rw [e2, ihR (m :: t) rest (by simp) hsz2]
          rfl
    · intro vs rest hne hsz
      cases vs with
      | nil => exact absurd rfl hne
      | cons x t =>
        cases t with
        | nil =>
          have e : printElems [x] ++ ']' :: rest =
              printJson x ++ ']' :: rest := by
            simp [printElems]
          rw [e]
          simp only [parseElems]
          rw [ihP x (']' :: rest)
            (by simp only [jsizeElems] at hsz; omega) (delim_rbrack rest)]
          rfl
        | cons y t2 =>
          have e : printElems (x :: y :: t2) ++ ']' :: rest =
              printJson x ++ (',' :: (printElems (y :: t2) ++ ']' :: rest)) := by
            simp [printElems]
          rw [e]
          simp only [parseElems]
          rw [ihP x (',' :: (printElems (y :: t2) ++ ']' :: rest))
            (by simp only [jsizeElems] at hsz; omega) (delim_comma _)]
          show (parseElems f (printElems (y :: t2) ++ ']' :: rest)).map
              (fun vr => (x :: vr.1, vr.2)) = some (x :: y :: t2, rest)
          rw [ihQ (y :: t2) rest (by simp)
            (by simp only [jsizeElems] at hsz ⊢; omega)]
          rfl
    · intro ms rest hne hsz
      cases ms with
      | nil => exact absurd rfl hne
      | cons m t =>
        obtain ⟨k, v⟩ := m
        cases t with
        | nil =>
          have e : printMembers [(k, v)] ++ '}' :: rest =
              '"' :: (printStrBody k ++
                '"' :: (':' :: (printJson v ++ '}' :: rest))) := by
            simp [printMembers, printStr]
          rw [e, parseMembers_step]
          rw [parseStringBody_print k _ _ (by simp)]
          show (match parseValue f (printJson v ++ '}' :: rest) with
                | none => none
                | some (v2, r4) =>
                  match skipWs r4 with
                  | ',' :: r5 =>
                    (parseMembers f r5).map fun mr => ((k, v2) :: mr.1, mr.2)
                  | '}' :: r5 => some ([(k, v2)], r5)
                  | _ => none) = some ([(k, v)], rest)
          rw [ihP v ('}' :: rest)
            (by simp only [jsizeMembers] at hsz; omega) (delim_rbrace rest)]
          rfl
        | cons g t2 =>
          have e : printMembers ((k, v) :: g :: t2) ++ '}' :: rest =
              '"' :: (printStrBody k ++ '"' :: (':' :: (printJson v ++
                ',' :: (printMembers (g :: t2) ++ '}' :: rest)))) := by
            simp [printMembers, printStr]
          rw [e, parseMembers_step]
          rw [parseStringBody_print k _ _ (by simp)]
          show (match parseValue f (printJson v ++
                  ',' :: (printMembers (g :: t2) ++ '}' :: rest)) with
                | none => none
                | some (v2, r4) =>
                  match skipWs r4 with
                  | ',' :: r5 =>
                    (parseMembers f r5).map fun mr => ((k, v2) :: mr.1, mr.2)
                  | '}' :: r5 => some ([(k, v2)], r5)
                  | _ => none) = some ((k, v) :: g :: t2, rest)
          rw [ihP v (',' :: (printMembers (g :: t2) ++ '}' :: rest))
            (by simp only [jsizeMembers] at hsz; omega) (delim_comma _)]
          show (parseMembers f (printMembers (g :: t2) ++ '}' :: rest)).map
              (fun mr => ((k, v) :: mr.1, mr.2)) = some ((k, v) :: g :: t2, rest)
          rw [ihR (g :: t2) rest (by simp)
            (by simp only [jsizeMembers] at hsz ⊢; omega)]
          rfl

theorem printInt_ne_nil (i : Int) : printInt i ≠ [] := by
  rcases i with m | m
  · rw [printInt_ofNat]; exact printNat_ne_nil m
  · rw [printInt_negSucc]; simp

theorem jsizeElems_le (xs : List Json)
    (h : ∀ x ∈ xs, jsize x ≤ (printJson x).length) :
    jsizeElems xs ≤ (printElems xs).length + 1 := by
  induction xs with
  | nil => simp [jsizeElems, printElems]
  | cons x t ih =>
    have hx := h x (List.mem_cons_self _ _)
    cases t with
    | nil =>
      simp only [jsizeElems, printElems]
      omega
    | cons y t2 =>
      have ht := ih (fun z hz => h z (List.mem_cons_of_mem _ hz))
      simp only [jsizeElems, printElems, List.length_append,
        List.length_cons] at ht ⊢
      omega

theorem jsizeMembers_le (fs : List (JStr × Json))
    (h : ∀ m ∈ fs, jsize m.2 ≤ (printJson m.2).length) :
    jsizeMembers fs ≤ (printMembers fs).length + 1 := by
  induction fs with
  | nil => simp [jsizeMembers, printMembers]
  | cons m t ih =>
    have hm := h m (List.mem_cons_self _ _)
    cases t with
    | nil =>
      simp only [jsizeMembers, printMembers, List.length_append,
        List.length_cons]
      omega
    | cons g t2 =>
      have ht := ih (fun z hz => h z (List.mem_cons_of_mem _ hz))
      simp only [jsizeMembers, printMembers, List.length_append,
        List.length_cons] at ht ⊢
      omega

theorem jsize_le_len : ∀ v : Json, jsize v ≤ (printJson v).length := by
  have H : ∀ n (v : Json), sizeOf v ≤ n → jsize v ≤ (printJson v).length := by
    intro n
    induction n with
    | zero =>
      intro v hv
      cases v <;> simp_all
    | succ n ih =>
      intro v hv
      cases v with
      | null => simp [jsize, printJson, js]
      | bool b => cases b <;> simp [jsize, printJson, js]
      | num m =>
        have h1 : printInt m ≠ [] := printInt_ne_nil m
        have h2 : 0 < (printInt m).length := List.length_pos.mpr h1
        simp only [jsize, printJson]
        omega
      | str s =>
        simp only [jsize, printJson, printStr, List.length_cons,
          List.length_append]
        omega
      | arr xs =>
        have hb := jsizeElems_le xs (fun x hx => by
          apply ih
          have h1 := List.sizeOf_lt_of_mem hx
          have h2 : sizeOf (Json.arr xs) = 1 + sizeOf xs := by simp
          omega)
        simp only [jsize, printJson, List.length_cons, List.length_append]
        omega
      | obj fs =>
        have hb := jsizeMembers_le fs (fun m hm => by
          apply ih
          have h1 := List.sizeOf_lt_of_mem hm
          have h2 : sizeOf (Json.obj fs) = 1 + sizeOf fs := by simp
          have h3 : sizeOf m.2 < sizeOf m := by
            obtain ⟨k, v2⟩ := m
            simp
          omega)
        simp only [jsize, printJson, List.length_cons, List.length_append]
        omega
  intro v
  exact H (sizeOf v) v le_rfl

/-- `JSON.parse` inverts `JSON.stringify` on every JSON value. -/
theorem jsonParse_print (v : Json) : jsonParse (printJson v) = some v := by
  unfold jsonParse
  have hP := (parse_print_aux ((printJson v).length + 1)).1 v []
    (by have := jsize_le_len v; omega) delim_nil
  rw [List.append_nil] at hP
  rw [hP]
  rfl

theorem b64Val_b64Char : ∀ v, v < 64 → b64Val (b64Char v) = some v := by
  decide

theorem b64Char_ne_pad : ∀ v, v < 64 → b64Char v ≠ '=' := by
  decide

theorem base64_roundtrip : ∀ bs : List Nat, (∀ x ∈ bs, x < 256) →
    base64Decode (base64Encode bs) = some bs := by
  have H : ∀ n (bs : List Nat), bs.length ≤ n → (∀ x ∈ bs, x < 256) →
      base64Decode (base64Encode bs) = some bs := by
    intro n
    induction n with
    | zero =>
      intro bs hl _
      have hnil : bs = [] := List.length_eq_zero.mp (by omega)
      subst hnil
      rfl
    | succ n ih =>
      intro bs hl hb
      match bs with
      | [] => rfl
      | [a] =>
        have ha := hb a (by simp)
        have e1 := b64Val_b64Char (a / 4) (by omega)
        have e2 := b64Val_b64Char (a % 4 * 16) (by omega)
        have k1 : a / 4 * 4 + a % 4 * 16 / 16 = a := by omega
        simp [base64Encode, base64Decode, e1, e2, k1]
        omega
      | [a, b] =>
        have ha := hb a (by simp)
        have hbb := hb b (by simp)
        have e1 := b64Val_b64Char (a / 4) (by omega)
        have e2 := b64Val_b64Char (a % 4 * 16 + b / 16) (by omega)
        have e3 := b64Val_b64Char (b % 16 * 4) (by omega)
        have p3 := b64Char_ne_pad (b % 16 * 4) (by omega)
        have k1 : a / 4 * 4 + (a % 4 * 16 + b / 16) / 16 = a := by omega
        have k2 : (a % 4 * 16 + b / 16) % 16 * 16 + b % 16 * 4 / 4 = b := by
          omega
        simp [base64Encode, base64Decode, e1, e2, e3, p3, k1, k2]
        omega
      | a :: b :: c :: rest =>
        have ha := hb a (by simp)
        have hbb := hb b (by simp)
        have hc := hb c (by simp)
        have e1 := b64Val_b64Char (a / 4) (by omega)
        have e2 := b64Val_b64Char (a % 4 * 16 + b / 16) (by omega)
        have e3 := b64Val_b64Char (b % 16 * 4 + c / 64) (by omega)
        have e4 := b64Val_b64Char (c % 64) (by omega)
        have p3 := b64Char_ne_pad (b % 16 * 4 + c / 64) (by omega)
        have p4 := b64Char_ne_pad (c % 64) (by omega)
        have hrec := ih rest (by simp at hl; omega)
          (fun x hx => hb x (by simp [hx]))
        have k1 : a / 4 * 4 + (a % 4 * 16 + b / 16) / 16 = a := by omega
        have k2 : (a % 4 * 16 + b / 16) % 16 * 16 + (b % 16 * 4 + c / 64) / 4 = b := by
          omega
        have k3 : (b % 16 * 4 + c / 64) % 4 * 64 + c % 64 = c := by omega
        simp [base64Encode, base64Decode, e1, e2, e3, e4, p3, p4, hrec, k1,
          k2, k3]
        try omega
  intro bs
  exact H bs.length bs le_rfl

theorem atob_btoa (s : List Char)
    (h : s.all (fun c => c.toNat ≤ 255) = true) :
    (btoaJS s).bind atobJS = some s := by
  rw [btoaJS, if_pos h]
  rw [Option.some_bind, atobJS,
    base64_roundtrip (s.map Char.toNat) (by
      intro x hx
      obtain ⟨c, hc, rfl⟩ := List.mem_map.mp hx
      have := List.all_eq_true.mp h c hc
      simp only [decide_eq_true_eq] at this
      omega)]
  show some ((s.map Char.toNat).map Char.ofNat) = some s
  rw [List.map_map]
  congr 1
  calc List.map (Char.ofNat ∘ Char.toNat) s
      = List.map id s := List.map_congr_left fun c _ => Char.ofNat_toNat c
    _ = s := List.map_id s

theorem utf8Encode_ascii (l : List Nat) (h : ∀ x ∈ l, x < 128) :
    utf8Encode l = l := by
  induction l with
  | nil => rfl
  | cons c t ih =>
    have hc : c < 128 := h c (List.mem_cons_self _ _)
    have ht := ih fun x hx => h x (List.mem_cons_of_mem _ hx)
    simp only [utf8Encode, List.map_cons, List.flatten_cons] at ht ⊢
    rw [utf8Char, if_pos hc, ht]
    rfl

/-- C1, counterexample: the round trip does not hold for every valid
header.  `headerWithWideChar` is a well-formed header, but `btoa` throws
on its JSON text (code point `0x20AE` exceeds `0xFF`), so
`encodeX402Header` fails and `decode ∘ encode` cannot return the header;
the encoding is also not base64 of the UTF-8 JSON serialization, which
exists for this header. -/
theorem c1_roundtrip_counterexample :
    isX402Header headerWithWideChar = true ∧
      wfKeys headerWithWideChar = true ∧
      encodeX402Header headerWithWideChar = none ∧
      (encodeX402Header headerWithWideChar).bind decodeX402Header = none := by
  refine ⟨by decide, by decide, ?_, ?_⟩ <;> rfl

/-- C1 (amended): for every valid header whose JSON serialization stays
within latin-1 (code points `≤ 0xFF`) the SDK round trip
`decodeX402Header (encodeX402Header h) = h` holds exactly; and whenever
the serialization is pure ASCII, `encodeX402Header` moreover produces
exactly base64 of the UTF-8 JSON serialization. -/
theorem c1_encode_roundtrip (h : Json)
    (hshape : isX402Header h = true)
    (hkeys : wfKeys h = true)
    (hlatin : (printJson h).all (fun c => c.toNat ≤ 255) = true) :
    (encodeX402Header h).bind decodeX402Header = some h ∧
    ((printJson h).all (fun c => c.toNat ≤ 127) = true →
      encodeX402Header h =
        some (base64Encode (utf8Encode ((printJson h).map Char.toNat)))) := by
  constructor
  · show (btoaJS (printJson h)).bind (fun e => (atobJS e).bind jsonParse) = some h
    rw [btoaJS, if_pos hlatin, Option.some_bind]
    have hdec : atobJS (base64Encode ((printJson h).map Char.toNat)) =
        some (printJson h) := by
      rw [atobJS, base64_roundtrip ((printJson h).map Char.toNat) (by
        intro x hx
        obtain ⟨c, hc, rfl⟩ := List.mem_map.mp hx
        have := List.all_eq_true.mp hlatin c hc
        simp only [decide_eq_true_eq] at this
        omega)]
      show some (((printJson h).map Char.toNat).map Char.ofNat) = _
      rw [List.map_map]
      congr 1
      calc List.map (Char.ofNat ∘ Char.toNat) (printJson h)
          = List.map id (printJson h) :=
            List.map_congr_left fun c _ => Char.ofNat_toNat c
        _ = printJson h := List.map_id _
    rw [hdec, Option.some_bind, jsonParse_print]
  · intro hascii
    rw [utf8Encode_ascii ((printJson h).map Char.toNat) (by
      intro x hx
      obtain ⟨c, hc, rfl⟩ := List.mem_map.mp hx
      have := List.all_eq_true.mp hascii c hc
      simp only [decide_eq_true_eq] at this
      omega)]
    rw [encodeX402Header, btoaJS, if_pos hlatin]

/-- C1 witness: the amended round trip, evaluated at a concrete header. -/
theorem c1_encode_roundtrip_witness :
    (encodeX402Header sampleHeader).bind decodeX402Header =
      some sampleHeader :=
  (c1_encode_roundtrip sampleHeader (by decide) (by decide) (by decide)).1

theorem detect_cond1_iff (fs : List (JStr × Json)) :
    (match jsGetLast fs (js ("x402Version")) with
     | some (.num n) => n == 2
     | _ => false) = true ↔
      jsGetLast fs (js ("x402Version")) = some (.num 2) := by
  rcases h : jsGetLast fs (js ("x402Version")) with - | v
  · simp
  · cases v <;> simp

theorem detect_cond2_iff (fs : List (JStr × Json)) :
    (match jsGetLast fs (js ("accepts")) with
     | some (.arr _) => true
     | _ => false) = true ↔
      ∃ xs, jsGetLast fs (js ("accepts")) = some (.arr xs) := by
  rcases h : jsGetLast fs (js ("accepts")) with - | v
  · simp
  · cases v <;> simp

theorem detect_cond3_iff (fs : List (JStr × Json)) :
    (match jsGetLast fs (js ("network")) with
     | some (.str s) => s.contains ':'
     | _ => false) = true ↔
      ∃ s, jsGetLast fs (js ("network")) = some (.str s) ∧ ':' ∈ s := by
  rcases h : jsGetLast fs (js ("network")) with - | v
  · simp
  · cases v <;> simp [List.elem_iff]

/-- C2: `detectX402Version` returns 2 exactly under the claim's condition
and returns 1 in every other case, including every non-object input. -/
theorem c2_detect_version (d : Json) :
    (detectX402Version d = 2 ↔ specSaysV2 d) ∧
    (detectX402Version d = 1 ↔ ¬ specSaysV2 d) := by
  have main : detectX402Version d = 2 ↔ specSaysV2 d := by
    cases d with
    | obj fs =>
      constructor
      · intro h2
        refine ⟨fs, rfl, ?_⟩
        simp only [detectX402Version] at h2
        by_cases hb1 : (match jsGetLast fs (js ("x402Version")) with
            | some (.num n) => n == 2
            | _ => false) = true
        · exact Or.inl ((detect_cond1_iff fs).mp hb1)
        · rw [if_neg hb1] at h2
          by_cases hb2 : (match jsGetLast fs (js ("accepts")) with
              | some (.arr _) => true
              | _ => false) = true
          · exact Or.inr (Or.inl ((detect_cond2_iff fs).mp hb2))
          · rw [if_neg hb2] at h2
            by_cases hb3 : (match jsGetLast fs (js ("network")) with
                | some (.str s) => s.contains ':'
                | _ => false) = true
            · exact Or.inr (Or.inr ((detect_cond3_iff fs).mp hb3))
            · rw [if_neg hb3] at h2
              exact absurd h2 (by omega)
      · rintro ⟨fs2, heq, hcond⟩
        have hfs : fs2 = fs := by
          injection heq with h
          exact h.symm
        simp only [detectX402Version]
        rcases hcond with hv | hacc | hnet
        · rw [hfs] at hv
          rw [if_pos ((detect_cond1_iff fs).mpr hv)]
        · rw [hfs] at hacc
          by_cases hb1 : (match jsGetLast fs (js ("x402Version")) with
              | some (.num n) => n == 2
              | _ => false) = true
          · rw [if_pos hb1]
          · rw [if_neg hb1, if_pos ((detect_cond2_iff fs).mpr hacc)]
        · rw [hfs] at hnet
          by_cases hb1 : (match jsGetLast fs (js ("x402Version")) with
              | some (.num n) => n == 2
              | _ => false) = true
          · rw [if_pos hb1]
          · rw [if_neg hb1]
            by_cases hb2 : (match jsGetLast fs (js ("accepts")) with
                | some (.arr _) => true
                | _ => false) = true
            · rw [if_pos hb2]
            · rw [if_neg hb2, if_pos ((detect_cond3_iff fs).mpr hnet)]
    | null =>
      refine ⟨fun h => absurd h (by decide), fun hP => ?_⟩
      obtain ⟨fs, heq, -⟩ := hP
      exact absurd heq (by simp)
    | bool b =>
      refine ⟨fun h => ?_, fun hP => ?_⟩
      · rw [show detectX402Version (.bool b) = 1 from rfl] at h
        exact absurd h (by omega)
      · obtain ⟨fs, heq, -⟩ := hP
        exact absurd heq (by simp)
    | num n =>
      refine ⟨fun h => ?_, fun hP => ?_⟩
      · rw [show detectX402Version (.num n) = 1 from rfl] at h
        exact absurd h (by omega)
      · obtain ⟨fs, heq, -⟩ := hP
        exact absurd heq (by simp)
    | str s =>
      refine ⟨fun h => ?_, fun hP => ?_⟩
      · rw [show detectX402Version (.str s) = 1 from rfl] at h
        exact absurd h (by omega)
      · obtain ⟨fs, heq, -⟩ := hP
        exact absurd heq (by simp)
    | arr xs =>
      refine ⟨fun h => ?_, fun hP => ?_⟩
      · rw [show detectX402Version (.arr xs) = 1 from rfl] at h
        exact absurd h (by omega)
      · obtain ⟨fs, heq, -⟩ := hP
        exact absurd heq (by simp)
  have range : detectX402Version d = 2 ∨ detectX402Version d = 1 := by
    cases d with
    | obj fs =>
      simp only [detectX402Version]
      split
      · exact Or.inl rfl
      · split
        · exact Or.inl rfl
        · split
          · exact Or.inl rfl
          · exact Or.inr rfl
    | null => exact Or.inr rfl
    | bool b => exact Or.inr rfl
    | num n => exact Or.inr rfl
    | str s => exact Or.inr rfl
    | arr xs => exact Or.inr rfl
  refine ⟨main, ?_, ?_⟩
  · intro h1 hP
    have := main.mpr hP
    omega
  · intro hnP
    rcases range with h | h
    · exact absurd (main.mp h) hnP
    · exact h

theorem caip2_roundtrip_all :
    (registeredChainNames.all fun n =>
      caip2ToChain (chainToCAIP2 n) == some n) = true := by
  rfl

/-- C8: for every registered chain name, converting to a CAIP-2
identifier and back returns the same name. -/
theorem c8_caip2_bijection (name : JStr) (h : name ∈ registeredChainNames) :
    caip2ToChain (chainToCAIP2 name) = some name := by
  have := List.all_eq_true.mp caip2_roundtrip_all name h
  exact eq_of_beq this

/-- C8 witness: the round trip at the chain name `base`. -/
theorem c8_caip2_bijection_witness :
    caip2ToChain (chainToCAIP2 (js ("base"))) = some (js ("base")) :=
  c8_caip2_bijection (js ("base")) (by decide)

/-- C3, counterexample: for the byte array `[0]` the encoder emits two
`'1'` characters (one for the leading zero byte, one for the always
non-empty limb array), and decoding adds yet another zero byte, so
`base58Decode (base58Encode [0]) = [0,0,0] ≠ [0]` and the leading-zero /
leading-one correspondence is off by one. -/
theorem c3_base58_counterexample :
    base58Encode [0] = js ("11") ∧
    base58Decode (base58Encode [0]) = some [0, 0, 0] ∧
    (([0] : List Nat).takeWhile (· == 0)).length = 1 ∧
    ((base58Encode [0]).takeWhile (· == '1')).length = 2 := by
  refine ⟨by decide, by decide, by decide, by decide⟩

theorem ofDigits_map_mul (b m : Nat) (l : List Nat) :
    Nat.ofDigits b (l.map (· * m)) = m * Nat.ofDigits b l := by
  induction l with
  | nil => simp [Nat.ofDigits]
  | cons h t ih =>
    simp only [List.map_cons, Nat.ofDigits_cons, ih]
    push_cast
    ring

theorem ofDigits_addToHead (b v : Nat) (l : List Nat) :
    Nat.ofDigits b (addToHead v l) = v + Nat.ofDigits b l := by
  cases l with
  | nil => simp [addToHead, Nat.ofDigits]
  | cons h t =>
    simp only [addToHead, Nat.ofDigits_cons]
    push_cast
    ring

theorem carryPass_length (b : Nat) : ∀ (l : List Nat) (c : Nat),
    (carryPass b c l).1.length = l.length := by
  intro l
  induction l with
  | nil => intro c; rfl
  | cons h t ih => intro c; simp [carryPass, ih]

theorem carryPass_lt (b : Nat) (hb : 0 < b) : ∀ (l : List Nat) (c : Nat),
    ∀ x ∈ (carryPass b c l).1, x < b := by
  intro l
  induction l with
  | nil => intro c x hx; simp [carryPass] at hx
  | cons h t ih =>
    intro c x hx
    simp only [carryPass, List.mem_cons] at hx
    rcases hx with rfl | hx
    · exact Nat.mod_lt _ hb
    · exact ih _ x hx

theorem carryPass_value (b : Nat) (hb : 0 < b) : ∀ (l : List Nat) (c : Nat),
    Nat.ofDigits b (carryPass b c l).1 + b ^ l.length * (carryPass b c l).2
      = c + Nat.ofDigits b l := by
  intro l
  induction l with
  | nil => intro c; simp [carryPass, Nat.ofDigits]
  | cons h t ih =>
    intro c
    have hih := ih ((h + c) / b)
    have hdm : (h + c) % b + b * ((h + c) / b) = h + c := Nat.mod_add_div _ _
    simp only [carryPass, Nat.ofDigits_cons, List.length_cons]
    have hb2 := congrArg (fun x => b * x) hih
    simp only [mul_add] at hb2
    have hp : b ^ (t.length + 1) * (carryPass b ((h + c) / b) t).2
        = b * (b ^ t.length * (carryPass b ((h + c) / b) t).2) := by ring
    push_cast at hb2 hp ⊢
    linarith [hb2, hdm, hp]

theorem pushLoop_eq_digits (b : Nat) (hb : 2 ≤ b) : ∀ (fuel c : Nat),
    c ≤ fuel → pushLoop b fuel c = Nat.digits b c := by
  intro fuel
  induction fuel with
  | zero =>
    intro c hc
    have : c = 0 := by omega
    subst this
    simp [pushLoop]
  | succ f ih =>
    intro c hc
    by_cases hc0 : c = 0
    · subst hc0; simp [pushLoop]
    · have hlt : c / b < c := Nat.div_lt_self (by omega) (by omega)
      rw [pushLoop, if_neg hc0, ih (c / b) (by omega),
        Nat.digits_def' (by omega : 1 < b) (by omega : 0 < c)]

theorem getLast?_addToHead_map (mul v : Nat) (l : List Nat) (d : Nat)
    (hd : l.getLast? = some d) :
    ∃ d2, (addToHead v (l.map (· * mul))).getLast? = some d2 ∧ mul * d ≤ d2 := by
  cases l with
  | nil => simp at hd
  | cons h t =>
    cases t with
    | nil =>
      have hdh : d = h := by
        simp only [List.getLast?_singleton, Option.some.injEq] at hd
        omega
      subst hdh
      exact ⟨d * mul + v, rfl, by nlinarith⟩
    | cons y t2 =>
      have hd2 : (y :: t2).getLast? = some d := by
        rw [List.getLast?_cons_cons] at hd
        exact hd
      refine ⟨d * mul, ?_, by nlinarith⟩
      show ((h * mul + v) :: (y :: t2).map (· * mul)).getLast? = some (d * mul)
      have : ((y :: t2).map (· * mul)).getLast? = some (d * mul) := by
        rw [List.getLast?_map, hd2]
        rfl
      obtain ⟨w, ws, hw⟩ :
          ∃ w ws, (y :: t2).map (· * mul) = w :: ws := ⟨_, _, rfl⟩
      rw [hw] at this ⊢
      rw [List.getLast?_cons_cons]
      exact this

theorem carryPass_last (b : Nat) : ∀ (l : List Nat) (c d : Nat),
    l.getLast? = some d →
    ∃ val, d ≤ val ∧ (carryPass b c l).1.getLast? = some (val % b) ∧
      (carryPass b c l).2 = val / b := by
  intro l
  induction l with
  | nil => intro c d hd; simp at hd
  | cons h t ih =>
    intro c d hd
    cases t with
    | nil =>
      have hdh : d = h := by
        simp only [List.getLast?_singleton, Option.some.injEq] at hd
        omega
      subst hdh
      exact ⟨d + c, by omega, rfl, rfl⟩
    | cons y t2 =>
      have hd2 : (y :: t2).getLast? = some d := by
        rw [List.getLast?_cons_cons] at hd
        exact hd
      obtain ⟨val, hvge, hlast, hcout⟩ := ih ((h + c) / b) d hd2
      refine ⟨val, hvge, ?_, hcout⟩
      show (((h + c) % b) :: (carryPass b ((h + c) / b) (y :: t2)).1).getLast?
          = some (val % b)
      have hlen : (carryPass b ((h + c) / b) (y :: t2)).1.length =
          (y :: t2).length := carryPass_length b _ _
      obtain ⟨w, ws, hw⟩ :
          ∃ w ws, (carryPass b ((h + c) / b) (y :: t2)).1 = w :: ws := by
        rcases hcase : (carryPass b ((h + c) / b) (y :: t2)).1 with - | ⟨w, ws⟩
        · rw [hcase] at hlen; simp at hlen
        · exact ⟨w, ws, rfl⟩
      rw [hw] at hlast ⊢
      rw [List.getLast?_cons_cons]
      exact hlast

theorem getLast?_cons_ne_nil (a : Nat) (l : List Nat) (h : l ≠ []) :
    (a :: l).getLast? = l.getLast? := by
  obtain ⟨w, ws, rfl⟩ := List.exists_cons_of_ne_nil h
  exact List.getLast?_cons_cons

theorem limbStep_zero (mul b : Nat) (hb : 2 ≤ b) :
    limbStep mul b [0] 0 = [0] := by
  simp [limbStep, addToHead, carryPass, pushLoop, Nat.zero_mod, Nat.zero_div]

theorem limbStep_from_zero (mul b v : Nat) (hb : 2 ≤ b) :
    limbStep mul b [0] v = v % b :: Nat.digits b (v / b) := by
  have h1 : addToHead v (([0] : List Nat).map (· * mul)) = [v] := by
    simp [addToHead]
  have h2 : carryPass b 0 [v] = ([v % b], v / b) := by
    simp [carryPass]
  show (carryPass b 0 (addToHead v (([0] : List Nat).map (· * mul)))).1 ++ _ = _
  rw [h1, h2]
  rw [pushLoop_eq_digits b hb _ _ le_rfl]
  rfl

theorem limbStep_inv (mul b v N : Nat) (hb : 2 ≤ b) (hm : 1 ≤ mul)
    (l : List Nat) (h : LimbInv b N l) :
    LimbInv b (N * mul + v) (limbStep mul b l v) := by
  obtain ⟨hval, hlt, hz, hnz⟩ := h
  have hb0 : 0 < b := by omega
  have hpush : pushLoop b (carryPass b 0 (addToHead v (l.map (· * mul)))).2
      (carryPass b 0 (addToHead v (l.map (· * mul)))).2 =
      Nat.digits b (carryPass b 0 (addToHead v (l.map (· * mul)))).2 :=
    pushLoop_eq_digits b hb _ _ le_rfl
  have hvalue : Nat.ofDigits b (limbStep mul b l v) = N * mul + v := by
    show Nat.ofDigits b
      ((carryPass b 0 (addToHead v (l.map (· * mul)))).1 ++
        pushLoop b _ _) = _
    rw [hpush, Nat.ofDigits_append, Nat.ofDigits_digits,
      carryPass_length b _ 0]
    have h1 := carryPass_value b hb0 (addToHead v (l.map (· * mul))) 0
    have h2 : Nat.ofDigits b (addToHead v (l.map (· * mul))) = v + mul * N := by
      rw [ofDigits_addToHead, ofDigits_map_mul, hval]
    have h3 : N * mul = mul * N := Nat.mul_comm _ _
    linarith [h1, h2, h3]
  have hbounds : ∀ x ∈ limbStep mul b l v, x < b := by
    intro x hx
    rcases List.mem_append.mp hx with hx | hx
    · exact carryPass_lt b hb0 _ 0 x hx
    · rw [hpush] at hx
      exact Nat.digits_lt_base hb hx
  refine ⟨hvalue, hbounds, ?_, ?_⟩
  · intro h0
    have hN : N = 0 := by
      by_contra hN0
      have : 1 ≤ N * mul := Nat.one_le_iff_ne_zero.mpr
        (Nat.mul_ne_zero hN0 (by omega))
      omega
    have hv0 : v = 0 := by omega
    rw [hz hN, hv0]
    exact limbStep_zero mul b hb
  · intro hN2
    by_cases hN : N = 0
    · have hv : v ≠ 0 := by
        subst hN
        simpa using hN2
      rw [hz hN, limbStep_from_zero mul b v hb]
      by_cases hdiv : v / b = 0
      · have hdc : Nat.digits b (v / b) = [] := by
          rw [hdiv]
          simp
        have hvb : v < b := (Nat.div_eq_zero_iff hb0).mp hdiv
        rw [hdc]
        exact ⟨v % b, rfl, by rw [Nat.mod_eq_of_lt hvb]; exact hv⟩
      · have hne : Nat.digits b (v / b) ≠ [] :=
          Nat.digits_ne_nil_iff_ne_zero.mpr hdiv
        refine ⟨(Nat.digits b (v / b)).getLast hne, ?_,
          Nat.getLast_digit_ne_zero b hdiv⟩
        rw [getLast?_cons_ne_nil _ _ hne]
        exact List.getLast?_eq_getLast _ hne
    · obtain ⟨d, hd, hdne⟩ := hnz hN
      obtain ⟨d2, hd2, hd2ge⟩ := getLast?_addToHead_map mul v l d hd
      obtain ⟨val, hvge, hlast, hcout⟩ := carryPass_last b _ 0 d2 hd2
      have hd2pos : 1 ≤ d2 :=
        le_trans (Nat.one_le_iff_ne_zero.mpr
          (Nat.mul_ne_zero (by omega) hdne)) hd2ge
      have hvalpos : 1 ≤ val := le_trans hd2pos hvge
      by_cases hco : (carryPass b 0 (addToHead v (l.map (· * mul)))).2 = 0
      · have hdiv : val / b = 0 := by rw [← hcout]; exact hco
        have hvb : val < b := (Nat.div_eq_zero_iff hb0).mp hdiv
        refine ⟨val % b, ?_, by rw [Nat.mod_eq_of_lt hvb]; omega⟩
        show ((carryPass b 0 (addToHead v (l.map (· * mul)))).1 ++
          pushLoop b _ _).getLast? = _
        rw [hco]
        show ((carryPass b 0 (addToHead v (l.map (· * mul)))).1 ++
          []).getLast? = _
        rw [List.append_nil]
        exact hlast
      · have hne : Nat.digits b
            (carryPass b 0 (addToHead v (l.map (· * mul)))).2 ≠ [] :=
          Nat.digits_ne_nil_iff_ne_zero.mpr hco
        refine ⟨(Nat.digits b _).getLast hne, ?_,
          Nat.getLast_digit_ne_zero b hco⟩
        show ((carryPass b 0 (addToHead v (l.map (· * mul)))).1 ++
          pushLoop b _ _).getLast? = _
        rw [hpush, List.getLast?_append_of_ne_nil _ hne]
        exact List.getLast?_eq_getLast _ hne

theorem limbInv_zero (b : Nat) (hb : 2 ≤ b) : LimbInv b 0 [0] := by
  refine ⟨by simp [Nat.ofDigits], ?_, fun _ => rfl, fun h => absurd rfl h⟩
  intro x hx
  simp at hx
  omega

theorem fold_limb_inv (mul b : Nat) (hb : 2 ≤ b) (hm : 1 ≤ mul) :
    ∀ (vs : List Nat) (l : List Nat) (N : Nat), LimbInv b N l →
      LimbInv b (vs.foldl (fun a d => a * mul + d) N)
        (vs.foldl (fun acc v => limbStep mul b acc v) l) := by
  intro vs
  induction vs with
  | nil => intro l N h; exact h
  | cons v t ih =>
    intro l N h
    exact ih _ _ (limbStep_inv mul b v N hb hm l h)

theorem limbInv_canonical (b N : Nat) (hb : 2 ≤ b) (l : List Nat)
    (h : LimbInv b N l) (hN : N ≠ 0) : l = Nat.digits b N := by
  obtain ⟨hval, hlt, -, hnz⟩ := h
  obtain ⟨d, hd, hdne⟩ := hnz hN
  have hne : l ≠ [] := by rintro rfl; simp at hd
  have hglast : ∀ h2 : l ≠ [], l.getLast h2 ≠ 0 := by
    intro h2
    have he := List.getLast?_eq_getLast l h2
    rw [hd] at he
    have : d = l.getLast h2 := by
      simpa using he
    omega
  rw [← hval]
  exact (Nat.digits_ofDigits b (by omega) l hlt hglast).symm

theorem ofDigits_replicate_zero (b : Nat) : ∀ n,
    Nat.ofDigits b (List.replicate n 0) = 0 := by
  intro n
  induction n with
  | zero => rfl
  | succ n ih => simp [List.replicate_succ, Nat.ofDigits_cons, ih]

theorem ofDigits_zero_all_zero (b : Nat) (hb : 1 ≤ b) : ∀ (l : List Nat),
    Nat.ofDigits b l = 0 → ∀ x ∈ l, x = 0 := by
  intro l
  induction l with
  | nil => intro _ x hx; simp at hx
  | cons h t ih =>
    intro h0 x hx
    rw [Nat.ofDigits_cons] at h0
    have hh : h = 0 ∧ b * Nat.ofDigits b t = 0 := by omega
    rcases List.mem_cons.mp hx with rfl | hx
    · exact hh.1
    · exact ih (by
        rcases Nat.mul_eq_zero.mp hh.2 with hb0 | ht
        · omega
        · exact ht) x hx

theorem dropWhile_head_not {α : Type} (p : α → Bool) :
    ∀ (l : List α) (w : α) (ws : List α), l.dropWhile p = w :: ws →
      p w = false := by
  intro l
  induction l with
  | nil => intro w ws h; simp [List.dropWhile] at h
  | cons h t ih =>
    intro w ws hw
    by_cases hp : p h = true
    · rw [List.dropWhile_cons_of_pos hp] at hw
      exact ih w ws hw
    · rw [List.dropWhile_cons_of_neg hp] at hw
      obtain ⟨rfl, -⟩ : h = w ∧ t = ws := by
        constructor
        · exact List.head_eq_of_cons_eq hw
        · exact List.tail_eq_of_cons_eq hw
      simpa using hp

theorem takeWhile_replicate_append {α : Type} (p : α → Bool) (c : α)
    (hp : p c = true) :
    ∀ (z : Nat) (l : List α),
      (match l with | [] => True | x :: _ => p x = false) →
      (List.replicate z c ++ l).takeWhile p = List.replicate z c := by
  intro z
  induction z with
  | zero =>
    intro l hl
    cases l with
    | nil => rfl
    | cons x t =>
      simp only [List.replicate, List.nil_append]
      rw [List.takeWhile_cons_of_neg (by simp [hl])]
  | succ z ih =>
    intro l hl
    rw [List.replicate_succ, List.cons_append,
      List.takeWhile_cons_of_pos hp, ih l hl]

theorem takeWhile_zeros (bytes : List Nat) :
    bytes.takeWhile (· == 0) =
      List.replicate (bytes.takeWhile (· == 0)).length 0 := by
  apply List.eq_replicate_of_mem
  intro x hx
  have := List.mem_takeWhile_imp hx
  simpa using this

theorem base58EncodeDigits_spec (bytes : List Nat) :
    LimbInv 58 (valMSB 256 bytes) (base58EncodeDigits bytes) :=
  fold_limb_inv 256 58 (by omega) (by omega) bytes [0] 0
    (limbInv_zero 58 (by omega))

theorem base58DecodeLimbs_all (chars : JStr) :
    ∀ (l : List Nat),
      (∀ c ∈ chars, (BASE58_ALPHABET.indexOf? c).isSome) →
      base58DecodeLimbs chars l = some (chars.foldl
        (fun acc c => limbStep 58 256 acc
          ((BASE58_ALPHABET.indexOf? c).getD 0)) l) := by
  induction chars with
  | nil => intro l _; rfl
  | cons c t ih =>
    intro l h
    obtain ⟨v, hv⟩ := Option.isSome_iff_exists.mp (h c (List.mem_cons_self _ _))
    simp only [base58DecodeLimbs, hv, List.foldl_cons]
    rw [ih _ (fun x hx => h x (List.mem_cons_of_mem _ hx))]
    simp

theorem b58_index_alpha : ∀ d, d < 58 →
    BASE58_ALPHABET.indexOf? (BASE58_ALPHABET.getD d ' ') = some d := by
  decide

theorem b58_alpha_ne_one : ∀ d, d < 58 → d ≠ 0 →
    BASE58_ALPHABET.getD d ' ' ≠ '1' := by
  decide

theorem b58_index_one : BASE58_ALPHABET.indexOf? '1' = some 0 := by
  decide

theorem valMSB_eq_ofDigits_reverse (b : Nat) (l : List Nat) :
    valMSB b l = Nat.ofDigits b l.reverse := by
  have h := valMSB_reverse b l.reverse 0
  rw [List.reverse_reverse] at h
  simpa [valMSB] using h

/-- C3 (amended): for every byte array containing at least one non-zero
byte, the Base58 round trip holds and the number of leading `'1'`
characters equals the number of leading zero bytes.  (All-zero arrays are
the off-by-one exception shown by the counterexample.) -/
theorem c3_base58_roundtrip (bytes : List Nat)
    (hbytes : ∀ x ∈ bytes, x < 256)
    (hnz : ∃ x ∈ bytes, x ≠ 0) :
    base58Decode (base58Encode bytes) = some bytes ∧
    ((base58Encode bytes).takeWhile (· == '1')).length =
      (bytes.takeWhile (· == 0)).length := by
  have hsplit : bytes.takeWhile (· == 0) ++ bytes.dropWhile (· == 0) = bytes :=
    List.takeWhile_append_dropWhile _ _
  set z := (bytes.takeWhile (· == 0)).length with hz
  have hrep : bytes.takeWhile (· == 0) = List.replicate z 0 :=
    takeWhile_zeros bytes
  set bs := bytes.dropWhile (· == 0) with hbs
  have hsplit2 : List.replicate z 0 ++ bs = bytes := by
    rw [← hrep]
    exact hsplit
  have hbsne : bs ≠ [] := by
    intro h0
    obtain ⟨x, hx, hxne⟩ := hnz
    rw [← hsplit2, h0, List.append_nil] at hx
    exact hxne (List.eq_of_mem_replicate hx)
  obtain ⟨d0, bs2, hbscons⟩ := List.exists_cons_of_ne_nil hbsne
  have hd0 : d0 ≠ 0 := by
    have := dropWhile_head_not (· == 0) bytes d0 bs2 (by rw [← hbs, hbscons])
    simpa using this
  set N := valMSB 256 bytes with hNdef
  have hNval : N = Nat.ofDigits 256 bs.reverse := by
    rw [hNdef, valMSB_eq_ofDigits_reverse, ← hsplit2, List.reverse_append,
      List.reverse_replicate, Nat.ofDigits_append, ofDigits_replicate_zero]
    simp
  have hbs_lt : ∀ x ∈ bs, x < 256 := fun x hx => hbytes x (by
    rw [← hsplit2]
    exact List.mem_append_right _ hx)
  have hNne : N ≠ 0 := by
    intro h0
    rw [hNval] at h0
    exact hd0 (ofDigits_zero_all_zero 256 (by omega) bs.reverse h0 d0 (by
      rw [hbscons]
      simp))
  have hDcanon : base58EncodeDigits bytes = Nat.digits 58 N :=
    limbInv_canonical 58 N (by omega) _ (base58EncodeDigits_spec bytes) hNne
  have hdigne : Nat.digits 58 N ≠ [] := Nat.digits_ne_nil_iff_ne_zero.mpr hNne
  have henc : base58Encode bytes = List.replicate z '1' ++
      (Nat.digits 58 N).reverse.map (fun d => BASE58_ALPHABET.getD d ' ') := by
    rw [base58Encode, hDcanon, ← hz]
  set gl := (Nat.digits 58 N).getLast hdigne with hgl
  have hglne : gl ≠ 0 := Nat.getLast_digit_ne_zero 58 hNne
  have hgl_lt : gl < 58 :=
    Nat.digits_lt_base (by omega) (List.getLast_mem hdigne)
  obtain ⟨ws, hws⟩ : ∃ ws, (Nat.digits 58 N).reverse.map
      (fun d => BASE58_ALPHABET.getD d ' ') =
        BASE58_ALPHABET.getD gl ' ' :: ws := by
    have hrevne : (Nat.digits 58 N).reverse ≠ [] := by simp [hdigne]
    obtain ⟨w2, ws2, hcons2⟩ := List.exists_cons_of_ne_nil hrevne
    have hrev : (Nat.digits 58 N).reverse.head? = some gl := by
      rw [List.head?_reverse, List.getLast?_eq_getLast _ hdigne]
    rw [hcons2] at hrev
    obtain rfl : w2 = gl := by simpa using hrev
    rw [hcons2]
    exact ⟨ws2.map _, rfl⟩
  have hheadfail : ((BASE58_ALPHABET.getD gl ' ') == '1') = false := by
    have := b58_alpha_ne_one gl hgl_lt hglne
    simpa using this
  have hones : (base58Encode bytes).takeWhile (· == '1') =
      List.replicate z '1' := by
    rw [henc, hws]
    exact takeWhile_replicate_append (· == '1') '1' (by decide) z _ hheadfail
  have hpart2 : ((base58Encode bytes).takeWhile (· == '1')).length = z := by
    rw [hones, List.length_replicate]
  refine ⟨?_, by rw [hpart2, hz]⟩
  have hallchars : ∀ c ∈ base58Encode bytes,
      (BASE58_ALPHABET.indexOf? c).isSome = true := by
    intro c hc
    rw [henc] at hc
    rcases List.mem_append.mp hc with hc | hc
    · obtain rfl := List.eq_of_mem_replicate hc
      rw [b58_index_one]
      rfl
    · obtain ⟨d, hd, rfl⟩ := List.mem_map.mp hc
      have hdlt : d < 58 :=
        Nat.digits_lt_base (by omega) (List.mem_reverse.mp hd)
      rw [b58_index_alpha d hdlt]
      rfl
  have hmapval : (base58Encode bytes).map
      (fun c => (BASE58_ALPHABET.indexOf? c).getD 0) =
      List.replicate z 0 ++ (Nat.digits 58 N).reverse := by
    rw [henc, List.map_append, List.map_map]
    congr 1
    · rw [List.map_replicate, b58_index_one]
      rfl
    · have h1 : List.map
          ((fun c => (BASE58_ALPHABET.indexOf? c).getD 0) ∘
            fun d => BASE58_ALPHABET.getD d ' ') (Nat.digits 58 N).reverse =
          List.map id (Nat.digits 58 N).reverse := by
        apply List.map_congr_left
        intro d hd
        have hdlt : d < 58 :=
          Nat.digits_lt_base (by omega) (List.mem_reverse.mp hd)
        show (BASE58_ALPHABET.indexOf? (BASE58_ALPHABET.getD d ' ')).getD 0 = d
        rw [b58_index_alpha d hdlt]
        rfl
      rw [h1, List.map_id]
  have hfold_eq : (base58Encode bytes).foldl
      (fun acc c => limbStep 58 256 acc ((BASE58_ALPHABET.indexOf? c).getD 0))
      [0] =
      ((base58Encode bytes).map
        (fun c => (BASE58_ALPHABET.indexOf? c).getD 0)).foldl
        (fun acc v => limbStep 58 256 acc v) [0] :=
    (List.foldl_map _ _ _ _).symm
  have hM : (List.replicate z 0 ++ (Nat.digits 58 N).reverse).foldl
      (fun a d => a * 58 + d) 0 = N := by
    have h1 := valMSB_eq_ofDigits_reverse 58
      (List.replicate z 0 ++ (Nat.digits 58 N).reverse)
    rw [valMSB] at h1
    rw [h1, List.reverse_append, List.reverse_reverse, List.reverse_replicate,
      Nat.ofDigits_append, ofDigits_replicate_zero, Nat.ofDigits_digits]
    simp
  have hdig256 : Nat.digits 256 N = bs.reverse := by
    rw [hNval]
    apply Nat.digits_ofDigits 256 (by omega) bs.reverse
      (fun x hx => hbs_lt x (List.mem_reverse.mp hx))
    intro h2
    have hrl : bs.reverse.getLast? = some d0 := by
      rw [List.getLast?_reverse, hbscons]
      rfl
    have he := List.getLast?_eq_getLast bs.reverse h2
    rw [hrl] at he
    have : d0 = bs.reverse.getLast h2 := by simpa using he
    omega
  have hdecLimbs : base58DecodeLimbs (base58Encode bytes) [0] =
      some bs.reverse := by
    rw [base58DecodeLimbs_all _ [0] hallchars]
    congr 1
    rw [hfold_eq, hmapval]
    have hinv := fold_limb_inv 58 256 (by omega) (by omega)
      (List.replicate z 0 ++ (Nat.digits 58 N).reverse) [0] 0
      (limbInv_zero 256 (by omega))
    rw [hM] at hinv
    rw [limbInv_canonical 256 N (by omega) _ hinv hNne, hdig256]
  show (base58DecodeLimbs (base58Encode bytes) [0]).map
      (fun b2 => (b2 ++ List.replicate
        ((base58Encode bytes).takeWhile (· == '1')).length 0).reverse) =
    some bytes
  rw [hdecLimbs, hpart2]
  simp only [Option.map_some']
  rw [List.reverse_append, List.reverse_reverse, List.reverse_replicate,
    hsplit2]

theorem c3_base58_roundtrip_witness :
    (∀ x ∈ ([0, 0, 255] : List Nat), x < 256) ∧
    (∃ x ∈ ([0, 0, 255] : List Nat), x ≠ 0) ∧
    (base58Decode (base58Encode [0, 0, 255]) = some [0, 0, 255] ∧
      ((base58Encode ([0, 0, 255] : List Nat)).takeWhile (· == '1')).length =
        (([0, 0, 255] : List Nat).takeWhile (· == 0)).length) :=
  ⟨by decide, by decide, c3_base58_roundtrip [0, 0, 255] (by decide) (by decide)⟩

theorem parseUnitsCore_exact (r : JStr) (d : Nat) (n : Nat)
    (h : parseUnitsCore r d = some n) :
    ∃ q : ℚ, decimalValNonneg r = some q ∧ (n : ℚ) = q * 10 ^ d := by
  rw [parseUnitsCore] at h
  rw [decimalValNonneg]
  rcases hs : splitDot r with _ | ⟨w, f⟩
  · rw [hs] at h
    exact absurd h (by simp)
  · rw [hs] at h
    simp only [] at h ⊢
    by_cases h0 : w.length + f.length = 0
    · rw [if_pos h0] at h
      exact absurd h (by simp)
    rw [if_neg h0] at h
    by_cases hd : d < f.length
    · rw [if_pos hd] at h
      exact absurd h (by simp)
    rw [if_neg hd] at h
    have hn : n = valMSB 10 (w.map digitVal) * 10 ^ d +
        valMSB 10 (f.map digitVal) * 10 ^ (d - f.length) := by
      have := h
      injection this with h2
      exact h2.symm
    refine ⟨_, by rw [if_neg h0], ?_⟩
    rw [hn]
    have hpow : (10 : ℚ) ^ d = 10 ^ f.length * 10 ^ (d - f.length) := by
      rw [← pow_add]
      congr 1
      omega
    have hne : (10 : ℚ) ^ f.length ≠ 0 := by positivity
    push_cast
    rw [hpow]
    field_simp
    ring

/-- C5: the EVM amount conversion `ethers.parseUnits(amount, decimals)` is
exact integer arithmetic: whenever it succeeds, the returned integer equals
the rational value of the decimal string times `10 ^ decimals` (and hence
equals its own rounding, with no floating-point drift), and in particular
"10.00" at 6 decimals gives 10000000 and "0.1" gives 100000. -/
theorem c5_parseUnits_exact (s : JStr) (d : Nat) (v : Int)
    (h : parseUnits s d = some v) :
    (∃ q : ℚ, decimalValQ s = some q ∧ (v : ℚ) = q * 10 ^ d ∧
      v = round (q * 10 ^ d)) ∧
    parseUnits (js ("10.00")) 6 = some 10000000 ∧
    parseUnits (js ("0.1")) 6 = some 100000 := by
  refine ⟨?_, by decide, by decide⟩
  have key : ∀ q : ℚ, (v : ℚ) = q * 10 ^ d →
      (v : ℚ) = q * 10 ^ d ∧ v = round (q * 10 ^ d) := by
    intro q hq
    refine ⟨hq, ?_⟩
    rw [← hq]
    exact (round_intCast v).symm
  rcases s with _ | ⟨c, r⟩
  · have h2 : (parseUnitsCore ([] : JStr) d).map (fun n : Nat => (n : Int)) = some v := h
    obtain ⟨n, hc, hv0⟩ := Option.map_eq_some'.mp h2
    have hv : v = (n : Int) := hv0.symm
    obtain ⟨q, hq1, hq2⟩ := parseUnitsCore_exact [] d n hc
    exact ⟨q, hq1, key q (by rw [hv]; exact hq2)⟩
  · by_cases hneg : c = '-'
    · subst hneg
      have h2 : (parseUnitsCore r d).map (fun n : Nat => -(n : Int)) = some v := by
        have h3 : parseUnits ('-' :: r) d =
            (parseUnitsCore r d).map (fun n : Nat => -(n : Int)) := by
          rw [parseUnits]
          rw [if_pos rfl]
        rw [← h3]
        exact h
      obtain ⟨n, hc, hv0⟩ := Option.map_eq_some'.mp h2
      have hv : v = -(n : Int) := hv0.symm
      obtain ⟨q, hq1, hq2⟩ := parseUnitsCore_exact r d n hc
      refine ⟨-q, ?_, key (-q) ?_⟩
      · show (if '-' = '-' then (decimalValNonneg r).map (fun q => -q)
          else decimalValNonneg ('-' :: r)) = some (-q)
        rw [if_pos rfl, hq1]
        rfl
      · rw [hv]
        push_cast
        rw [hq2]
        ring
    · have h2 : (parseUnitsCore (c :: r) d).map (fun n : Nat => (n : Int)) = some v := by
        have h3 : parseUnits (c :: r) d =
            (parseUnitsCore (c :: r) d).map (fun n : Nat => (n : Int)) := by
          rw [parseUnits]
          rw [if_neg hneg]
        rw [← h3]
        exact h
      obtain ⟨n, hc, hv0⟩ := Option.map_eq_some'.mp h2
      have hv : v = (n : Int) := hv0.symm
      obtain ⟨q, hq1, hq2⟩ := parseUnitsCore_exact (c :: r) d n hc
      refine ⟨q, ?_, key q (by rw [hv]; exact hq2)⟩
      show (if c = '-' then (decimalValNonneg r).map (fun q => -q)
        else decimalValNonneg (c :: r)) = some q
      rw [if_neg hneg]
      exact hq1

theorem c5_parseUnits_exact_witness :
    parseUnits (js ("0.1")) 6 = some 100000 ∧
    ((∃ q : ℚ, decimalValQ (js ("0.1")) = some q ∧
        ((100000 : Int) : ℚ) = q * 10 ^ 6 ∧
        (100000 : Int) = round (q * 10 ^ 6)) ∧
      parseUnits (js ("10.00")) 6 = some 10000000 ∧
      parseUnits (js ("0.1")) 6 = some 100000) :=
  ⟨by decide, c5_parseUnits_exact (js ("0.1")) 6 100000 (by decide)⟩

theorem validateRecipient_ws (recipient : JStr) (nt : Option JStr)
    (h : jsTrim recipient = []) :
    validateRecipient recipient nt = some invalidRecipientErr := by
  rw [validateRecipient.eq_def]
  by_cases he : recipient = []
  · rw [if_pos he]
  · rw [if_neg he, if_pos h]

/-- C4 counterexample: the NEAR builder never validates the recipient.
With an empty recipient and all effects succeeding it performs two RPC
calls and a wallet signature and returns a successful payload addressed
to the empty account, instead of raising INVALID_RECIPIENT synchronously;
the validator itself would have rejected the input. -/
theorem c4_recipient_counterexample :
    nearSignPayment true [] 1000000 ⟨.ok 5, .ok 100, .ok [1, 2, 3]⟩ =
      ([Effect.rpc (js ("getAccessKeyNonce")),
        Effect.rpc (js ("getLatestBlock")),
        Effect.walletSign (js ("signMessage"))],
       .ok ⟨[], 1000000, 6, 1100, [1, 2, 3]⟩) ∧
    validateRecipient [] (some (js ("near"))) = some invalidRecipientErr :=
  ⟨rfl, rfl⟩

/-- C4 (amended): validateRecipient rejects every empty or whitespace-only
recipient with INVALID_RECIPIENT for every network type, and the EVM
builder (the only builder that calls it) raises that error synchronously,
with no network or wallet effect. -/
theorem c4_evm_fail_fast (recipient : JStr) (nt : Option JStr) (amount : JStr)
    (d w : Nat) (signRes : Except JStr JStr) (h : jsTrim recipient = []) :
    validateRecipient recipient nt = some invalidRecipientErr ∧
    evmSignPayment true recipient amount d w signRes =
      ([], .error invalidRecipientErr) := by
  refine ⟨validateRecipient_ws recipient nt h, ?_⟩
  have h2 := validateRecipient_ws recipient (some (js ("evm"))) h
  rw [evmSignPayment, if_neg (show ¬ (true = false) from by decide), h2]

theorem c4_evm_fail_fast_witness :
    jsTrim (js ("  ")) = [] ∧
    (validateRecipient (js ("  ")) (some (js ("near"))) =
        some invalidRecipientErr ∧
      evmSignPayment true (js ("  ")) (js ("1")) 6 0 (.ok []) =
        ([], .error invalidRecipientErr)) :=
  ⟨by decide, c4_evm_fail_fast (js ("  ")) (some (js ("near"))) (js ("1")) 6 0
    (.ok []) (by decide)⟩

/-- C6 counterexample: the relayer fee transaction carries a hardcoded
flat fee of 2000 microalgos regardless of the suggested parameters, so
when the network minimum fee is 1001 the fee is below twice the minimum. -/
theorem c6_fee_counterexample :
    (algoPaymentGroup (js ("FAC")) (js ("SND")) (js ("RCV")) 5 ⟨1001, 9⟩ 7).map
        AlgoTxn.fee = [2000, 0] ∧
    ¬ (2 * 1001 ≤ 2000) ∧
    (algoPaymentGroup (js ("FAC")) (js ("SND")) (js ("RCV")) 5 ⟨1001, 9⟩ 7).map
        AlgoTxn.groupId = [some 7, some 7] := by
  decide

/-- C6 (amended): the Algorand payment group is always two transactions
sharing one group id: transaction 0 is the relayer zero-value
self-payment with flat fee exactly 2000 and transaction 1 is the asset
transfer with fee exactly 0; the fee covers twice the network minimum
only when the minimum fee is at most 1000 (the usual value). -/
theorem c6_group_structure (facilitator sender recipient : JStr)
    (amountMicro : Nat) (sp : AlgoSuggestedParams) (gid : Nat) :
    algoPaymentGroup facilitator sender recipient amountMicro sp gid =
      [⟨facilitator, facilitator, 0, 2000, sp.firstValid, some gid⟩,
       ⟨sender, recipient, amountMicro, 0, sp.firstValid, some gid⟩] ∧
    (sp.minFee ≤ 1000 → 2 * sp.minFee ≤ 2000) :=
  ⟨rfl, fun h => by omega⟩

theorem c6_group_structure_witness :
    algoPaymentGroup (js ("F")) (js ("S")) (js ("R")) 11 ⟨1000, 4⟩ 7 =
      [⟨js ("F"), js ("F"), 0, 2000, 4, some 7⟩,
       ⟨js ("S"), js ("R"), 11, 0, 4, some 7⟩] ∧
    (1000 ≤ 1000 → 2 * 1000 ≤ 2000) :=
  c6_group_structure (js ("F")) (js ("S")) (js ("R")) 11 ⟨1000, 4⟩ 7

/-- C7: every successful Sui payload is the object
{transactionBytes, senderSignature, from, to, amount} WITHOUT the
coinObjectId field, although the facilitator payload type declares
coinObjectId as required; so the payload never satisfies the declared
shape. -/
theorem c7_sui_payload_missing_coin (sender facilitator recipient : JStr)
    (amountMicro : Nat) (coins : List (JStr × Nat))
    (signRes : Except JStr (JStr × JStr)) (effs : List Effect) (j : Json)
    (h : suiSignPayment true sender facilitator recipient amountMicro coins
      signRes = (effs, .ok j)) :
    getField j (js ("coinObjectId")) = none ∧
    isSuiPayloadComplete j = false ∧
    isStrField j (js ("transactionBytes")) = true ∧
    isStrField j (js ("senderSignature")) = true ∧
    isStrField j (js ("from")) = true ∧
    isStrField j (js ("to")) = true ∧
    isStrField j (js ("amount")) = true := by
  rcases signRes with m | ⟨bytes, sig⟩ <;>
    rw [suiSignPayment, if_neg (show ¬ (true = false) from by decide)] at h
  · by_cases hf : facilitator = []
    · rw [if_pos hf] at h
      exact absurd h (by simp)
    rw [if_neg hf] at h
    by_cases hc : coins = []
    · rw [if_pos hc] at h
      exact absurd h (by simp)
    rw [if_neg hc] at h
    by_cases hs : (coins.map Prod.snd).sum < amountMicro
    · rw [if_pos hs] at h
      exact absurd h (by simp)
    rw [if_neg hs] at h
    exact absurd h (by simp)
  · by_cases hf : facilitator = []
    · rw [if_pos hf] at h
      exact absurd h (by simp)
    rw [if_neg hf] at h
    by_cases hc : coins = []
    · rw [if_pos hc] at h
      exact absurd h (by simp)
    rw [if_neg hc] at h
    by_cases hs : (coins.map Prod.snd).sum < amountMicro
    · rw [if_pos hs] at h
      exact absurd h (by simp)
    rw [if_neg hs] at h
    have h2 : (Except.ok (Json.obj [
        (js ("transactionBytes"), Json.str bytes),
        (js ("senderSignature"), Json.str sig),
        (js ("from"), Json.str sender),
        (js ("to"), Json.str recipient),
        (js ("amount"), Json.str (printNat amountMicro))]) :
          Except JsErr Json) = .ok j := congrArg Prod.snd h
    have hj := Except.ok.inj h2
    rw [← hj]
    exact ⟨rfl, rfl, rfl, rfl, rfl, rfl, rfl⟩

theorem c7_sui_payload_missing_coin_witness :
    suiSignPayment true (js ("0xS")) (js ("0xF")) (js ("0xR")) 5
        [(js ("coin1"), 10)] (.ok (js ("B"), js ("G"))) =
      ([Effect.rpc (js ("getCoins")),
        Effect.walletSign (js ("signTransaction"))],
       .ok (Json.obj [
         (js ("transactionBytes"), Json.str (js ("B"))),
         (js ("senderSignature"), Json.str (js ("G"))),
         (js ("from"), Json.str (js ("0xS"))),
         (js ("to"), Json.str (js ("0xR"))),
         (js ("amount"), Json.str (printNat 5))])) ∧
    (getField (Json.obj [
         (js ("transactionBytes"), Json.str (js ("B"))),
         (js ("senderSignature"), Json.str (js ("G"))),
         (js ("from"), Json.str (js ("0xS"))),
         (js ("to"), Json.str (js ("0xR"))),
         (js ("amount"), Json.str (printNat 5))]) (js ("coinObjectId")) = none ∧
      isSuiPayloadComplete (Json.obj [
         (js ("transactionBytes"), Json.str (js ("B"))),
         (js ("senderSignature"), Json.str (js ("G"))),
         (js ("from"), Json.str (js ("0xS"))),
         (js ("to"), Json.str (js ("0xR"))),
         (js ("amount"), Json.str (printNat 5))]) = false ∧
      isStrField (Json.obj [
         (js ("transactionBytes"), Json.str (js ("B"))),
         (js ("senderSignature"), Json.str (js ("G"))),
         (js ("from"), Json.str (js ("0xS"))),
         (js ("to"), Json.str (js ("0xR"))),
         (js ("amount"), Json.str (printNat 5))]) (js ("transactionBytes")) = true ∧
      isStrField (Json.obj [
         (js ("transactionBytes"), Json.str (js ("B"))),
         (js ("senderSignature"), Json.str (js ("G"))),
         (js ("from"), Json.str (js ("0xS"))),
         (js ("to"), Json.str (js ("0xR"))),
         (js ("amount"), Json.str (printNat 5))]) (js ("senderSignature")) = true ∧
      isStrField (Json.obj [
         (js ("transactionBytes"), Json.str (js ("B"))),
         (js ("senderSignature"), Json.str (js ("G"))),
         (js ("from"), Json.str (js ("0xS"))),
         (js ("to"), Json.str (js ("0xR"))),
         (js ("amount"), Json.str (printNat 5))]) (js ("from")) = true ∧
      isStrField (Json.obj [
         (js ("transactionBytes"), Json.str (js ("B"))),
         (js ("senderSignature"), Json.str (js ("G"))),
         (js ("from"), Json.str (js ("0xS"))),
         (js ("to"), Json.str (js ("0xR"))),
         (js ("amount"), Json.str (printNat 5))]) (js ("to")) = true ∧
      isStrField (Json.obj [
         (js ("transactionBytes"), Json.str (js ("B"))),
         (js ("senderSignature"), Json.str (js ("G"))),
         (js ("from"), Json.str (js ("0xS"))),
         (js ("to"), Json.str (js ("0xR"))),
         (js ("amount"), Json.str (printNat 5))]) (js ("amount")) = true) :=
  ⟨rfl, c7_sui_payload_missing_coin (js ("0xS")) (js ("0xF")) (js ("0xR")) 5
    [(js ("coin1"), 10)] (.ok (js ("B"), js ("G"))) _ _ rfl⟩

/-- C9: with the current-ledger fetch returning s, Stellar signPayment
signs the preimage (networkId, nonce, s + 60, invocation) and reuses
exactly the same nonce, expiration ledger s + 60 and invocation in the
returned authorization entry credentials and in the top-level payload
fields, binding one signature to one (invocation, nonce, expiry) tuple. -/
theorem c9_stellar_binding (publicKey recipient tokenContract networkId : JStr)
    (amountStroops nonce currentLedger : Nat) (sigB64 : JStr) :
    stellarSignPayment true publicKey recipient tokenContract networkId
        amountStroops nonce ⟨.ok currentLedger, .ok sigB64⟩ =
      ([Effect.rpc (js ("getLatestLedger")),
        Effect.walletSign (js ("signAuthEntry"))],
       .ok (⟨networkId, nonce, currentLedger + 60,
              ⟨tokenContract, js ("transfer"), publicKey, recipient,
                amountStroops⟩⟩,
            ⟨publicKey, recipient, amountStroops, tokenContract,
              ⟨⟨publicKey, nonce, currentLedger + 60, sigB64⟩,
               ⟨tokenContract, js ("transfer"), publicKey, recipient,
                 amountStroops⟩⟩,
              nonce, currentLedger + 60⟩)) := rfl

/-- C10 counterexample: the SVM builder performs getAccountInfo outside
its try/catch, so a raw RPC failure propagates uncaught as a raw provider
error instead of an X402Error from the taxonomy. -/
theorem c10_raw_error_counterexample :
    svmSignPayment true (js ("FAC")) (js ("REC")) 1000000
      ⟨.error (js ("fetch failed")), .ok (js ("bh")), .ok []⟩ =
      ([Effect.rpc (js ("getAccountInfo"))],
       .error (.raw (js ("fetch failed")))) ∧
    isX402 (.raw (js ("fetch failed"))) = false :=
  ⟨rfl, rfl⟩

/-- C10 (amended): errors raised at the wallet-signing step are always
wrapped into the taxonomy: an SVM signing failure m becomes svmWrap m,
which is SIGNATURE_REJECTED or PAYMENT_FAILED retaining m as cause, and
every error the NEAR builder returns is an X402 taxonomy error; raw
errors leak only from the RPC steps outside the try/catch blocks. -/
theorem c10_wallet_errors_wrapped (m fac rec bh : JStr) (amt : Nat)
    (connected : Bool) (recipient : JStr) (a : Nat) (env : NearEnv)
    (e : JsErr) (hfac : fac ≠ [])
    (hnear : (nearSignPayment connected recipient a env).2 = .error e) :
    (svmSignPayment true fac rec amt ⟨.ok true, .ok bh, .error m⟩).2 =
      .error (svmWrap m) ∧
    (svmWrap m = JsErr.x402 (js ("SIGNATURE_REJECTED")) none ∨
      svmWrap m = JsErr.x402 (js ("PAYMENT_FAILED")) (some m)) ∧
    isX402 e = true := by
  have hwrap : ∀ m2, isX402 (nearWrap m2) = true := by
    intro m2
    rw [nearWrap]
    by_cases h2 : (jsIncludes m2 (js ("User rejected")) ||
        jsIncludes m2 (js ("cancelled"))) = true
    · rw [if_pos h2]
      rfl
    · rw [if_neg h2]
      rfl
  refine ⟨?_, ?_, ?_⟩
  · rw [svmSignPayment, if_neg (show ¬ (true = false) from by decide),
      if_neg hfac]
  · rw [svmWrap]
    by_cases hj : jsIncludes m (js ("User rejected")) = true
    · rw [if_pos hj]
      left
      rfl
    · rw [if_neg hj]
      right
      rfl
  · rcases env with ⟨ak, bh2, sm⟩
    cases connected
    · simp [nearSignPayment] at hnear
      rw [← hnear]
      rfl
    · rcases ak with m2 | n
      · simp [nearSignPayment] at hnear
        rw [← hnear]
        exact hwrap m2
      · rcases bh2 with m2 | hgt
        · simp [nearSignPayment] at hnear
          rw [← hnear]
          exact hwrap m2
        · rcases sm with m2 | sig
          · simp [nearSignPayment] at hnear
            rw [← hnear]
            exact hwrap m2
          · simp [nearSignPayment] at hnear

theorem c10_wallet_errors_wrapped_witness :
    (js ("F") ≠ ([] : JStr) ∧
      (nearSignPayment true (js ("R")) 5
        ⟨.error (js ("kaput")), .ok 0, .ok []⟩).2 =
        .error (JsErr.x402 (js ("PAYMENT_FAILED")) (some (js ("kaput"))))) ∧
    ((svmSignPayment true (js ("F")) (js ("R")) 5
        ⟨.ok true, .ok (js ("bh")), .error (js ("boom"))⟩).2 =
      .error (svmWrap (js ("boom"))) ∧
    (svmWrap (js ("boom")) = JsErr.x402 (js ("SIGNATURE_REJECTED")) none ∨
      svmWrap (js ("boom")) = JsErr.x402 (js ("PAYMENT_FAILED"))
        (some (js ("boom")))) ∧
    isX402 (JsErr.x402 (js ("PAYMENT_FAILED")) (some (js ("kaput")))) = true) :=
  ⟨⟨by decide, rfl⟩,
   c10_wallet_errors_wrapped (js ("boom")) (js ("F")) (js ("R")) (js ("bh")) 5
    true (js ("R")) 5 ⟨.error (js ("kaput")), .ok 0, .ok []⟩
    (JsErr.x402 (js ("PAYMENT_FAILED")) (some (js ("kaput")))) (by decide) rfl⟩
